import Mathlib

/-!
Proof-of-stake minting core (`src/pos/staking-manager.cpp`)

A shallow embedding of `CStakingManager` and the properties of its kernel search,
stake selection, coinstake construction and maintenance cycle.

Conventions of the embedding.

* `unsigned int` / `uint32_t` values are natural numbers, and every 32-bit operation of the
  source is written with an explicit reduction modulo 2^32 (`wrapU32`, `toU32`).
* `CAmount` (`int64_t`), `int` heights and `int64_t` clock values are integers.  Signed
  overflow is undefined behaviour in C++, so the embedding describes the executions in
  which no signed addition overflows.
* Collaborators that are not part of this file of the repository (wallet, chain state,
  kernel hash, maturity check, block assembler, validator) are oracles: functions or
  recorded answers supplied by the caller of a definition.
* Values that the source re-reads from shared state while it runs (the live chain height
  inside the search loop, the tip height of the pacing guard) are separate answers, one
  per read.
-/

namespace CStakingManager

/-! ## Machine integers -/

/-- Reduction of a natural number to the range of `unsigned int`. -/
def wrapU32 (n : Nat) : Nat := n % 4294967296

/-- Conversion of a signed 64-bit value to `uint32_t`, as in `(uint32_t)GetAdjustedTime()`. -/
def toU32 (x : Int) : Nat := (x % 4294967296).toNat

/-- Conversion of a 64-bit value to `int` (two's complement narrowing). -/
def toI32 (x : Int) : Int := (x + 2147483648) % 4294967296 - 2147483648

/-! ## Data -/

/-- The fields of `CBlockIndex` read by the staking manager: `nHeight` (`int`) and
`nTime` (`uint32_t`). -/
structure CBlockIndex where
  nHeight : Int
  nTime : Nat
  deriving DecidableEq, Repr

/-- A transaction output `CTxOut(nValue, scriptPubKey)`; the script is a list of bytes. -/
structure CTxOut where
  nValue : Int
  scriptPubKey : List Nat
  deriving DecidableEq, Repr

/-- A transaction input `CTxIn`, identified by the outpoint it spends. -/
structure CTxIn where
  prevoutHash : Nat
  prevoutN : Nat
  deriving DecidableEq, Repr

/-- The fields of `CMutableTransaction` written by `CreateCoinStake`. -/
structure CMutableTransaction where
  vin : List CTxIn
  vout : List CTxOut
  nTime : Nat
  deriving DecidableEq, Repr

/-- Modelled from the spec: the classes `CStakeInput` and `CIonStake` are declared in
`pos/stakeinput.h`, which is not part of the sources at hand.  A stake input has a source
transaction reference, an output index and a monetary value (`GetValue()`); `indexFrom` is
the answer of `GetIndexFrom()`, absent when the origin block is not known. -/
structure StakeInput where
  txFrom : Nat
  nPosition : Nat
  nValue : Int
  indexFrom : Option CBlockIndex
  deriving DecidableEq, Repr

/-- A wallet output `COutput` as returned by `AvailableCoins`, with the attributes the
selector reads: the transaction `out.tx`, the index `out.i`, the value
`out.tx->tx->vout[out.i].nValue`, `out.tx->tx->vin[0].IsZerocoinSpend()`,
`out.tx->IsInMainChain()`, the entry of `mapBlockIndex` for `out.tx->hashBlock` (absent
when `mapBlockIndex.at` throws) and the origin block that the stake input made from this
output reports. -/
structure COutput where
  tx : Nat
  i : Nat
  nValue : Int
  isZerocoinSpend : Bool
  isInMainChain : Bool
  utxoBlock : Option CBlockIndex
  stakeIndexFrom : Option CBlockIndex
  deriving DecidableEq, Repr

/-- The stake input built by `new CIonStake()` followed by `SetInput(out.tx->tx, out.i)`. -/
def SetInput (out : COutput) : StakeInput :=
  { txFrom := out.tx, nPosition := out.i, nValue := out.nValue, indexFrom := out.stakeIndexFrom }

/-! ## The hashed-attempt record `mapHashedBlocks`

Modelled as an association list kept in increasing key order, the iteration order of
`std::map`. -/

/-- Modelled from the spec: the member `mapHashedBlocks` is declared in
`staking-manager.h`, which is not part of the sources at hand.  The record is a "mapping
from block height to the wall-clock time of the last search attempt at that height". -/
abbrev HashedBlocks := List (Int × Int)

/-- The member function `std::map::count`: 1 when the key has an entry, else 0. -/
def mapCount (m : HashedBlocks) (k : Int) : Nat :=
  if m.any (fun e => e.1 == k) then 1 else 0

/-- Insertion of `(k, v)` at its place in key order, replacing the value of an entry with
the same key. -/
def mapInsert : HashedBlocks → Int → Int → HashedBlocks
  | [], k, v => [(k, v)]
  | e :: rest, k, v =>
    if k < e.1 then (k, v) :: e :: rest
    else if k = e.1 then (k, v) :: rest
    else e :: mapInsert rest k v

/-- The read access `m[k]` of `std::map::operator[]`: the value stored for `k`, after
inserting a value-initialised entry `(k, 0)` when the key has none. -/
def mapIndex (m : HashedBlocks) (k : Int) : HashedBlocks × Int :=
  match m.lookup k with
  | some v => (m, v)
  | none => (mapInsert m k 0, 0)

/-- The assignment `m[k] = v`. -/
def mapAssign (m : HashedBlocks) (k : Int) (v : Int) : HashedBlocks :=
  mapInsert (mapIndex m k).1 k v

/-- The member function `std::map::clear`. -/
def mapClear (_m : HashedBlocks) : HashedBlocks := []

/-! ## Collaborators -/

/-- The external functions the staking manager calls, and the consensus and policy
constants it reads. -/
structure Oracles where
  /-- `HasStakeMinAgeOrDepth(contextHeight, contextTime, utxoFromBlockHeight, utxoFromBlockTime)`. -/
  HasStakeMinAgeOrDepth : Int → Int → Int → Int → Bool
  /-- `CheckStakeKernelHash(pindexPrev, nBits, stakeInput, nTimeTx, hashProofOfStake)`: the
  verdict and the value left in the reference `hashProofOfStake`. -/
  CheckStakeKernelHash : CBlockIndex → Nat → StakeInput → Nat → Nat → Bool × Nat
  /-- `GetNextWorkRequired(pindexPrev, params, false)`. -/
  GetNextWorkRequired : CBlockIndex → Nat
  /-- `stakeInput->CreateTxOuts(pwallet, vout, nTotal)`: the verdict and the value left in
  the reference `vout`. -/
  CreateTxOuts : StakeInput → List CTxOut → Int → Bool × List CTxOut
  /-- `stakeInput->CreateTxIn(pwallet, in, hashTxOut)`: the input written, absent on failure. -/
  CreateTxIn : StakeInput → Nat → Option CTxIn
  /-- `::GetSerializeSize(tx, SER_NETWORK, CTransaction::CURRENT_VERSION)`. -/
  GetSerializeSize : CMutableTransaction → Nat
  /-- `CMutableTransaction::GetHash()`. -/
  GetHash : CMutableTransaction → Nat
  /-- Policy constant `MAX_STANDARD_TX_SIZE`. -/
  MAX_STANDARD_TX_SIZE : Nat
  /-- Consensus parameter `nBlockStakeModifierV2`. -/
  nBlockStakeModifierV2 : Int
  /-- Consensus parameter `nStakeMinDepth`. -/
  nStakeMinDepth : Int
  /-- Consensus parameter `POSStartHeight`. -/
  POSStartHeight : Int
  /-- Consensus parameter `POSPOWStartHeight`. -/
  POSPOWStartHeight : Int

/-! ## Kernel search: `CStakingManager::Stake` -/

/-- What one call of `Stake` reads from shared state: the answers of `chainActive.Height()`
inside the loop (the k-th evaluation, counted from 0), `GetAdjustedTime()` when the window
is computed, and `chainActive.Tip()->nHeight` and `GetTime()` when the record is written. -/
structure StakeReads where
  Height : Nat → Int
  adjustedTime : Int
  tipHeight : Int
  time : Int

/-- Observable events of the search loop, in program order. -/
inductive StakeEvent where
  /-- `chainActive.Height()` was evaluated and answered `h`. -/
  | height (h : Int)
  /-- `CheckStakeKernelHash` was called on timestamp `t` and answered `ok`. -/
  | kernel (t : Nat) (ok : Bool)
  deriving DecidableEq, Repr

/-- State of `Stake` when the `while` loop is left. -/
structure StakeLoopExit where
  fSuccess : Bool
  nTryTime : Nat
  hashProofOfStake : Nat
  trace : List StakeEvent
  deriving DecidableEq, Repr

/-- Prepends events to the trace of a loop exit. -/
def StakeLoopExit.after (evs : List StakeEvent) (x : StakeLoopExit) : StakeLoopExit :=
  { x with trace := evs ++ x.trace }

/-- The loop `while (nTryTime < maxTime) { ... }` of `Stake`.  `check t hash` is the kernel
check for the fixed stake input; `reads` counts the evaluations of `chainActive.Height()`
made so far.  The first argument bounds the number of iterations; the result is `none`
when the bound is used up while the loop condition still holds. -/
def stakeLoop (check : Nat → Nat → Bool × Nat) (Height : Nat → Int) (prevHeight : Int)
    (maxTime : Nat) : Nat → Nat → Nat → Nat → Option StakeLoopExit
  | 0, nTryTime, hash, _ =>
    if nTryTime < maxTime then none
    else some { fSuccess := false, nTryTime := nTryTime, hashProofOfStake := hash, trace := [] }
  | fuel + 1, nTryTime, hash, reads =>
    if nTryTime < maxTime then
      -- new block came in, move on
      if Height reads ≠ prevHeight then
        some { fSuccess := false, nTryTime := nTryTime, hashProofOfStake := hash,
               trace := [StakeEvent.height (Height reads)] }
      else
        -- ++nTryTime
        let nTryTime1 := wrapU32 (nTryTime + 1)
        let r := check nTryTime1 hash
        let evs := [StakeEvent.height (Height reads), StakeEvent.kernel nTryTime1 r.1]
        if !r.1 then
          (stakeLoop check Height prevHeight maxTime fuel nTryTime1 r.2 (reads + 1)).map
            (StakeLoopExit.after evs)
        else
          some { fSuccess := true, nTryTime := nTryTime1, hashProofOfStake := r.2, trace := evs }
    else some { fSuccess := false, nTryTime := nTryTime, hashProofOfStake := hash, trace := [] }

/-- Outcome of a call of `Stake`: the returned boolean, the final values of the reference
parameters `nTimeTx` and `hashProofOfStake`, the record `mapHashedBlocks`, and the events
of the search loop. -/
structure StakeResult where
  found : Bool
  nTimeTx : Nat
  hashProofOfStake : Nat
  mapHashedBlocks : HashedBlocks
  trace : List StakeEvent
  deriving DecidableEq, Repr

/-- Start value of the loop variable: `nTryTime = nTimeTx - 1` in `unsigned int`. -/
def stakeTryStart (nTimeTx : Nat) : Nat := wrapU32 (nTimeTx + 4294967295)

/-- The bound `maxTime = std::min(nTimeTx + nHashDrift, (uint32_t)GetAdjustedTime() +
nFutureTimeDriftPoS)` with `nHashDrift = 60` and `nFutureTimeDriftPoS = 180`. -/
def stakeMaxTime (nTimeTx : Nat) (adjustedTime : Int) : Nat :=
  min (wrapU32 (nTimeTx + 60)) (wrapU32 (toU32 adjustedTime + 180))

/-- The function `CStakingManager::Stake`. -/
def Stake (o : Oracles) (live : StakeReads) (pindexPrev : CBlockIndex) (stakeInput : StakeInput)
    (nBits : Nat) (nTimeTx : Nat) (hashProofOfStake : Nat) (mapHashedBlocks : HashedBlocks) :
    Option StakeResult :=
  let prevHeight := pindexPrev.nHeight
  let failed : StakeResult :=
    { found := false, nTimeTx := nTimeTx, hashProofOfStake := hashProofOfStake,
      mapHashedBlocks := mapHashedBlocks, trace := [] }
  -- get stake input pindex
  match stakeInput.indexFrom with
  | none => some failed
  | some pindexFrom =>
    if pindexFrom.nHeight < 1 then some failed
    -- check for maturity (min age/depth) requirements
    else if !o.HasStakeMinAgeOrDepth (prevHeight + 1) nTimeTx pindexFrom.nHeight pindexFrom.nTime then
      some failed
    else
      -- iterate the hashing
      let nTryTime := stakeTryStart nTimeTx
      let maxTime := stakeMaxTime nTimeTx live.adjustedTime
      match stakeLoop (o.CheckStakeKernelHash pindexPrev nBits stakeInput) live.Height prevHeight
          maxTime (maxTime - nTryTime) nTryTime hashProofOfStake 0 with
      | none => none
      | some x =>
        some { found := x.fSuccess,
               nTimeTx := if x.fSuccess then x.nTryTime else nTimeTx,
               hashProofOfStake := x.hashProofOfStake,
               mapHashedBlocks := mapAssign (mapClear mapHashedBlocks) live.tipHeight live.time,
               trace := x.trace }

/-! ## Eligibility of wallet outputs: `MintableCoins` and `SelectStakeCoins` -/

/-- How a call of a `bool` member function ends: with a returned value, or with an
exception leaving the function (`mapBlockIndex.at` on an unknown block hash,
`boost::this_thread::interruption_point`). -/
inductive Completion where
  | returns (b : Bool)
  | throws
  deriving DecidableEq, Repr

/-- What the selector reads while it holds `cs_main` and the wallet lock: the answer of
`chainActive.Height()`, of `pwallet->AvailableCoins(..., nMinDepth)` for a minimum depth,
and of `GetAdjustedTime()`. -/
structure WalletReads where
  Height : Int
  AvailableCoins : Int → List COutput
  adjustedTime : Int

/-- The minimum depth passed to `AvailableCoins`:
`blockHeight >= nBlockStakeModifierV2 ? nStakeMinDepth : 1`. -/
def nMinDepth (o : Oracles) (blockHeight : Int) : Int :=
  if blockHeight ≥ o.nBlockStakeModifierV2 then o.nStakeMinDepth else 1

/-- The loop `for (const COutput &out : vCoins)` of `MintableCoins`. -/
def mintableLoop (o : Oracles) (adjustedTime : Int) (blockHeight : Int) :
    List COutput → Completion
  | [] => Completion.returns false
  | out :: rest =>
    if out.isZerocoinSpend && !out.isInMainChain then
      mintableLoop o adjustedTime blockHeight rest
    else
      match out.utxoBlock with
      | none => Completion.throws
      | some utxoBlock =>
        -- check for maturity (min age/depth)
        if o.HasStakeMinAgeOrDepth blockHeight adjustedTime utxoBlock.nHeight utxoBlock.nTime then
          Completion.returns true
        else mintableLoop o adjustedTime blockHeight rest

/-- The function `CStakingManager::MintableCoins`; `pwallet` tells whether the wallet
pointer is non-null. -/
def MintableCoins (o : Oracles) (w : WalletReads) (pwallet : Bool) : Completion :=
  if !pwallet then Completion.returns false
  else
    let blockHeight := w.Height
    let vCoins := w.AvailableCoins (nMinDepth o blockHeight)
    mintableLoop o w.adjustedTime blockHeight vCoins

/-- The loop `for (const COutput &out : vCoins)` of `SelectStakeCoins`, from the running
sum `nAmountSelected`: how the loop ends and the stake inputs it emplaces, in order. -/
def selectLoop (o : Oracles) (adjustedTime : Int) (nTargetAmount : Int) (blockHeight : Int) :
    List COutput → Int → Completion × List StakeInput
  | [], _ => (Completion.returns true, [])
  | out :: rest, nAmountSelected =>
    -- make sure not to outrun target amount
    if nAmountSelected + out.nValue > nTargetAmount then
      selectLoop o adjustedTime nTargetAmount blockHeight rest nAmountSelected
    else if out.isZerocoinSpend && !out.isInMainChain then
      selectLoop o adjustedTime nTargetAmount blockHeight rest nAmountSelected
    else
      match out.utxoBlock with
      | none => (Completion.throws, [])
      | some utxoBlock =>
        -- check for maturity (min age/depth)
        if !o.HasStakeMinAgeOrDepth blockHeight adjustedTime utxoBlock.nHeight utxoBlock.nTime then
          selectLoop o adjustedTime nTargetAmount blockHeight rest nAmountSelected
        else
          -- add to our stake set
          let r := selectLoop o adjustedTime nTargetAmount blockHeight rest
            (nAmountSelected + out.nValue)
          (r.1, SetInput out :: r.2)

/-- The function `CStakingManager::SelectStakeCoins`: how the call ends and the final
value of the reference parameter `listInputs`. -/
def SelectStakeCoins (o : Oracles) (w : WalletReads) (pwallet : Bool)
    (listInputs : List StakeInput) (nTargetAmount : Int) (blockHeight : Int) :
    Completion × List StakeInput :=
  if !pwallet then (Completion.returns false, listInputs)
  else
    let vCoins := w.AvailableCoins (nMinDepth o blockHeight)
    let r := selectLoop o w.adjustedTime nTargetAmount blockHeight vCoins 0
    (r.1, listInputs ++ r.2)

/-! ## The manager object -/

/-- The data members of `CStakingManager`.  `pwallet` tells whether the wallet pointer is
non-null. -/
structure Manager where
  nMintableLastCheck : Int
  fMintableCoins : Bool
  fLastLoopOrphan : Bool
  nExtraNonce : Nat
  fEnableStaking : Bool
  fEnableIONStaking : Bool
  nReserveBalance : Int
  pwallet : Bool
  nHashInterval : Nat
  nLastCoinStakeSearchInterval : Int
  nLastCoinStakeSearchTime : Int
  mapHashedBlocks : HashedBlocks
  tipIndex : Option CBlockIndex
  deriving DecidableEq, Repr

/-- The constructor `CStakingManager::CStakingManager(pwalletIn)`; `adjustedTime` is the
answer of `GetAdjustedTime()`.  The record is default-constructed, hence empty. -/
def Manager.construct (pwalletIn : Bool) (adjustedTime : Int) : Manager :=
  { nMintableLastCheck := 0, fMintableCoins := false, fLastLoopOrphan := false,
    nExtraNonce := 0, fEnableStaking := false, fEnableIONStaking := false,
    nReserveBalance := 0, pwallet := pwalletIn, nHashInterval := 22,
    nLastCoinStakeSearchInterval := 0, nLastCoinStakeSearchTime := adjustedTime,
    mapHashedBlocks := [], tipIndex := none }

/-! ## Coinstake construction: `CStakingManager::CreateCoinStake` -/

/-- What one call of `CreateCoinStake` reads: the wallet balance, the selector's view of
wallet and chain, `GetAdjustedTime()` for the initial block time, and for the k-th
candidate (counted from 0) the answers of `pwallet->IsLocked(true)`,
`ShutdownRequested()`, whether `interruption_point()` throws, and the reads of its kernel
search. -/
structure CoinStakeReads where
  balance : Int
  wallet : WalletReads
  adjustedTime : Int
  isLocked : Nat → Bool
  shutdownRequested : Nat → Bool
  interruptionRequested : Nat → Bool
  stake : Nat → StakeReads

/-- Observable events of `CreateCoinStake`, in program order. -/
inductive CoinStakeEvent where
  /-- The wallet query `pwallet->GetBalance()`. -/
  | getBalance
  /-- A call `SelectStakeCoins(listInputs, nTargetAmount, blockHeight)`. -/
  | selectStakeCoins (nTargetAmount : Int) (blockHeight : Int)
  /-- A call of `Stake` on a candidate from start time `nTimeTx`, with its loop events. -/
  | stake (stakeInput : StakeInput) (nTimeTx : Nat) (trace : List StakeEvent)
  /-- A call `stakeInput->CreateTxOuts`. -/
  | createTxOuts (stakeInput : StakeInput)
  /-- A call `stakeInput->CreateTxIn`. -/
  | createTxIn (stakeInput : StakeInput)
  deriving DecidableEq, Repr

/-- Outcome of a call of `CreateCoinStake`: how it ends, the final values of the reference
parameters `coinstakeTx` and `coinstakeInput`, the manager, and the events. -/
structure CoinStakeResult where
  status : Completion
  coinstakeTx : CMutableTransaction
  coinstakeInput : Option StakeInput
  self : Manager
  trace : List CoinStakeEvent
  deriving DecidableEq, Repr

/-- Prepends events to the trace of an outcome. -/
def CoinStakeResult.after (evs : List CoinStakeEvent) (x : CoinStakeResult) : CoinStakeResult :=
  { x with trace := evs ++ x.trace }

/-- The marker output `CTxOut(0, scriptEmpty)` of a coinstake transaction. -/
def markerTxOut : CTxOut := { nValue := 0, scriptPubKey := [] }

/-- The loop `for (std::unique_ptr<CStakeInput>& stakeInput : listInputs)` of
`CreateCoinStake` together with the final `if (!fKernelFound) return false; return true;`.
`k` is the position of the first remaining candidate, `nTxNewTime` and `tx` the current
block time and draft.  The result is `none` only when a kernel search exhausts its
iteration bound. -/
def coinStakeLoop (o : Oracles) (reads : CoinStakeReads) (pindexPrev : CBlockIndex)
    (coinstakeInput : Option StakeInput) :
    List StakeInput → Nat → Nat → CMutableTransaction → Manager → Option CoinStakeResult
  | [], _, _, tx, self =>
    some { status := Completion.returns false, coinstakeTx := tx,
           coinstakeInput := coinstakeInput, self := self, trace := [] }
  | stakeInput :: rest, k, nTxNewTime, tx, self =>
    -- Make sure the wallet is unlocked and shutdown hasn't been requested
    if reads.isLocked k || reads.shutdownRequested k then
      some { status := Completion.returns false, coinstakeTx := tx,
             coinstakeInput := coinstakeInput, self := self, trace := [] }
    else if reads.interruptionRequested k then
      some { status := Completion.throws, coinstakeTx := tx,
             coinstakeInput := coinstakeInput, self := self, trace := [] }
    else
      let stakeNBits := o.GetNextWorkRequired pindexPrev
      match Stake o (reads.stake k) pindexPrev stakeInput stakeNBits nTxNewTime 0
          self.mapHashedBlocks with
      | none => none
      | some s =>
        let self1 := { self with mapHashedBlocks := s.mapHashedBlocks }
        let evStake := CoinStakeEvent.stake stakeInput nTxNewTime s.trace
        if s.found then
          let tx1 := { tx with nTime := s.nTimeTx }
          -- Stake output value is set to stake input value.
          let outs := o.CreateTxOuts stakeInput tx1.vout stakeInput.nValue
          let tx2 := { tx1 with vout := outs.2 }
          if !outs.1 then
            some { status := Completion.returns false, coinstakeTx := tx2,
                   coinstakeInput := coinstakeInput, self := self1,
                   trace := [evStake, CoinStakeEvent.createTxOuts stakeInput] }
          -- Limit size
          else if o.GetSerializeSize tx2 ≥ o.MAX_STANDARD_TX_SIZE then
            some { status := Completion.returns false, coinstakeTx := tx2,
                   coinstakeInput := coinstakeInput, self := self1,
                   trace := [evStake, CoinStakeEvent.createTxOuts stakeInput] }
          else
            let evs := [evStake, CoinStakeEvent.createTxOuts stakeInput,
                        CoinStakeEvent.createTxIn stakeInput]
            match o.CreateTxIn stakeInput (o.GetHash tx2) with
            | none =>
              (coinStakeLoop o reads pindexPrev coinstakeInput rest (k + 1) s.nTimeTx
                { tx2 with vin := [], vout := [] } self1).map (CoinStakeResult.after evs)
            | some txin =>
              some { status := Completion.returns true,
                     coinstakeTx := { tx2 with vin := tx2.vin ++ [txin] },
                     coinstakeInput := some stakeInput, self := self1, trace := evs }
        else
          (coinStakeLoop o reads pindexPrev coinstakeInput rest (k + 1) s.nTimeTx tx self1).map
            (CoinStakeResult.after [evStake])

/-- The initial block time of `CreateCoinStake`: `unsigned int nTxNewTime =
GetAdjustedTime();`, replaced by `pindexPrev->nTime` if that is larger ("If the block time
is in the future, then starts there"). -/
def coinStakeStartTime (adjustedTime : Int) (pindexPrev : CBlockIndex) : Nat :=
  let nTxNewTime := toU32 adjustedTime
  if pindexPrev.nTime > nTxNewTime then pindexPrev.nTime else nTxNewTime

/-- The function `CStakingManager::CreateCoinStake`.  `pindexPrev` is absent for a null
pointer.  The block that compares `GetAdjustedTime()` with the tip time has an empty body
in the source and is left out. -/
def CreateCoinStake (o : Oracles) (reads : CoinStakeReads) (self : Manager)
    (pindexPrev : Option CBlockIndex) (coinstakeTx : CMutableTransaction)
    (coinstakeInput : Option StakeInput) : Option CoinStakeResult :=
  match pindexPrev with
  | none =>
    some { status := Completion.returns false, coinstakeTx := coinstakeTx,
           coinstakeInput := coinstakeInput, self := self, trace := [] }
  | some prev =>
    -- Needs wallet
    if !self.pwallet then
      some { status := Completion.returns false, coinstakeTx := coinstakeTx,
             coinstakeInput := coinstakeInput, self := self, trace := [] }
    else
      -- Mark coin stake transaction
      let tx0 := { coinstakeTx with vin := [], vout := [markerTxOut] }
      -- Choose coins to use
      let nBalance := reads.balance
      if nBalance > 0 && nBalance ≤ self.nReserveBalance then
        some { status := Completion.returns false, coinstakeTx := tx0,
               coinstakeInput := coinstakeInput, self := self,
               trace := [CoinStakeEvent.getBalance] }
      else
        -- Get the list of stakable inputs
        let nTargetAmount := nBalance - self.nReserveBalance
        let sel := SelectStakeCoins o reads.wallet self.pwallet [] nTargetAmount (prev.nHeight + 1)
        let evs := [CoinStakeEvent.getBalance,
                    CoinStakeEvent.selectStakeCoins nTargetAmount (prev.nHeight + 1)]
        match sel.1 with
        | Completion.throws =>
          some { status := Completion.throws, coinstakeTx := tx0,
                 coinstakeInput := coinstakeInput, self := self, trace := evs }
        | Completion.returns false =>
          some { status := Completion.returns false, coinstakeTx := tx0,
                 coinstakeInput := coinstakeInput, self := self, trace := evs }
        | Completion.returns true =>
          (coinStakeLoop o reads prev coinstakeInput sel.2 0
            (coinStakeStartTime reads.adjustedTime prev) tx0 self).map (CoinStakeResult.after evs)

/-! ## Status query and tip notification -/

/-- What `IsStaking` reads: the two evaluations of `chainActive.Tip()->nHeight`. -/
structure IsStakingReads where
  tipHeightFirst : Int
  tipHeightSecond : Int

/-- The value of the local variable `nStaking` when control reaches the closing brace of
`IsStaking`. -/
def IsStakingLocal (self : Manager) (reads : IsStakingReads) : Bool :=
  if mapCount self.mapHashedBlocks reads.tipHeightFirst ≠ 0 then true
  else if mapCount self.mapHashedBlocks (reads.tipHeightSecond - 1) ≠ 0
      ∧ self.nLastCoinStakeSearchInterval ≠ 0 then true
  else false

/-- The function `CStakingManager::IsStaking`: the value its `return` statements hand to
the caller.  The body computes `nStaking` and ends without a `return` statement, so no
value is handed over on any path (`none`); the record is only read, through `count`. -/
def IsStaking (self : Manager) (reads : IsStakingReads) : Option Bool :=
  let _nStaking := IsStakingLocal self reads
  none

/-- The function `CStakingManager::UpdatedBlockTip`. -/
def UpdatedBlockTip (self : Manager) (pindex : CBlockIndex) : Manager :=
  { self with tipIndex := some pindex }

/-! ## The maintenance cycle: `CStakingManager::DoMaintenance` -/

/-- Answer of `BlockAssembler(Params()).CreateNewBlock(...)`: a `std::exception`, a null
template, or a block template. -/
inductive BlockTemplateAnswer where
  | threw
  | null
  | block
  deriving DecidableEq, Repr

/-- What one call of `DoMaintenance` reads, in program order: `chainActive.Tip()`, the
node count of `g_connman` (absent for a null `g_connman`), `pwallet->IsLocked(true)`,
`masternodeSync.IsSynced()`, `pwallet->GetBalance()`, the tip height evaluated for
`count` and evaluated again for `operator[]` in the pacing guard, `GetTime()`, the reads
of `MintableCoins`, `GetAdjustedTime()` for the search time, the value of
`new CMutableTransaction`, `chainActive.Tip()` passed to `CreateCoinStake` and the reads of
that call, and the answers of the block assembler, of `GetKeyIDFromUTXO`, of
`pwallet->GetKey`, of `key.Sign` and of `ProcessNewBlock`. -/
structure MaintenanceReads where
  tip : Option CBlockIndex
  nodeCount : Option Nat
  isLocked : Bool
  isSynced : Bool
  balance : Int
  tipHeightCount : Int
  tipHeightIndex : Int
  time : Int
  mintable : WalletReads
  adjustedTime : Int
  newTransaction : CMutableTransaction
  tipCreate : Option CBlockIndex
  coinStake : CoinStakeReads
  CreateNewBlock : CMutableTransaction → Option StakeInput → BlockTemplateAnswer
  GetKeyIDFromUTXO : Bool
  GetKey : Bool
  Sign : Bool
  ProcessNewBlock : Bool

/-- Observable events of a maintenance cycle, in program order. -/
inductive MaintenanceEvent where
  /-- A call `MilliSleep(ms)`. -/
  | sleep (ms : Int)
  /-- A call of `MintableCoins`. -/
  | mintableCoins
  /-- A call of `CreateCoinStake`, with its events. -/
  | createCoinStake (trace : List CoinStakeEvent)
  /-- A call of `CreateNewBlock`. -/
  | createNewBlock
  /-- A call of `ProcessNewBlock` and its answer. -/
  | processNewBlock (accepted : Bool)
  deriving DecidableEq, Repr

/-- How a call of `DoMaintenance` ends: it returns, an exception leaves it, or its
behaviour is undefined (it dereferences a null `pwallet`). -/
inductive MaintenanceStatus where
  | returns
  | throws
  | undefined
  deriving DecidableEq, Repr

/-- Outcome of a maintenance cycle. -/
structure MaintenanceResult where
  status : MaintenanceStatus
  self : Manager
  trace : List MaintenanceEvent
  deriving DecidableEq, Repr

/-- Prepends events to the trace of an outcome. -/
def MaintenanceResult.after (evs : List MaintenanceEvent) (x : MaintenanceResult) :
    MaintenanceResult :=
  { x with trace := evs ++ x.trace }

/-- The readiness gate's pause: `nLastCoinStakeSearchInterval = 0; MilliSleep(1 * 60 * 1000);
return;`. -/
def maintenanceGated (self : Manager) : MaintenanceResult :=
  { status := MaintenanceStatus.returns,
    self := { self with nLastCoinStakeSearchInterval := 0 },
    trace := [MaintenanceEvent.sleep (1 * 60 * 1000)] }

/-- The part of `DoMaintenance` after a successful `CreateCoinStake`: block template,
signature, submission. -/
def maintenanceSubmit (reads : MaintenanceReads) (self : Manager)
    (coinstakeTx : CMutableTransaction) (coinstakeInput : Option StakeInput) :
    MaintenanceResult :=
  match reads.CreateNewBlock coinstakeTx coinstakeInput with
  | BlockTemplateAnswer.threw =>
    { status := MaintenanceStatus.returns, self := self,
      trace := [MaintenanceEvent.createNewBlock, MaintenanceEvent.sleep (1 * 60 * 1000)] }
  | BlockTemplateAnswer.null =>
    { status := MaintenanceStatus.returns, self := self,
      trace := [MaintenanceEvent.createNewBlock] }
  | BlockTemplateAnswer.block =>
    -- Sign block
    if !reads.GetKeyIDFromUTXO then
      { status := MaintenanceStatus.returns, self := self,
        trace := [MaintenanceEvent.createNewBlock] }
    else if !reads.GetKey then
      { status := MaintenanceStatus.returns, self := self,
        trace := [MaintenanceEvent.createNewBlock] }
    else if !reads.Sign then
      { status := MaintenanceStatus.returns, self := self,
        trace := [MaintenanceEvent.createNewBlock] }
    -- Process block
    else if !reads.ProcessNewBlock then
      { status := MaintenanceStatus.returns,
        self := { self with fLastLoopOrphan := true },
        trace := [MaintenanceEvent.createNewBlock, MaintenanceEvent.processNewBlock false,
                  MaintenanceEvent.sleep (10 * 1000)] }
    else
      { status := MaintenanceStatus.returns, self := self,
        trace := [MaintenanceEvent.createNewBlock, MaintenanceEvent.processNewBlock true] }

/-- The part of `DoMaintenance` from `int64_t nSearchTime = GetAdjustedTime();` on: the
search-time gate and the creation of the coinstake. -/
def maintenanceSearch (o : Oracles) (reads : MaintenanceReads) (self : Manager) :
    Option MaintenanceResult :=
  let nSearchTime := reads.adjustedTime
  if nSearchTime < self.nLastCoinStakeSearchTime then
    some { status := MaintenanceStatus.returns, self := self,
           trace := [MaintenanceEvent.sleep ((self.nLastCoinStakeSearchTime - nSearchTime) * 1000)] }
  else
    let self1 := { self with
      nLastCoinStakeSearchInterval := nSearchTime - self.nLastCoinStakeSearchTime,
      nLastCoinStakeSearchTime := nSearchTime }
    -- Create new block
    match CreateCoinStake o reads.coinStake self1 reads.tipCreate reads.newTransaction none with
    | none => none
    | some c =>
      match c.status with
      | Completion.throws =>
        some { status := MaintenanceStatus.throws, self := c.self,
               trace := [MaintenanceEvent.createCoinStake c.trace] }
      | Completion.returns false =>
        some { status := MaintenanceStatus.returns, self := c.self,
               trace := [MaintenanceEvent.createCoinStake c.trace] }
      | Completion.returns true =>
        some ((maintenanceSubmit reads c.self c.coinstakeTx c.coinstakeInput).after
          [MaintenanceEvent.createCoinStake c.trace])

/-- The part of `DoMaintenance` from `fLastLoopOrphan = false;` on: the eligibility gate. -/
def maintenanceEligibility (o : Oracles) (reads : MaintenanceReads) (self : Manager) :
    Option MaintenanceResult :=
  let self1 := { self with fLastLoopOrphan := false }
  -- control the amount of times the client will check for mintable coins
  match MintableCoins o reads.mintable self1.pwallet with
  | Completion.throws =>
    some { status := MaintenanceStatus.throws, self := self1,
           trace := [MaintenanceEvent.mintableCoins] }
  | Completion.returns false =>
    -- No mintable coins
    some { status := MaintenanceStatus.returns,
           self := { self1 with nLastCoinStakeSearchInterval := 0 },
           trace := [MaintenanceEvent.mintableCoins, MaintenanceEvent.sleep (5 * 60 * 1000)] }
  | Completion.returns true =>
    (maintenanceSearch o reads self1).map (MaintenanceResult.after [MaintenanceEvent.mintableCoins])

/-- The part of `DoMaintenance` from the search of `mapHashedBlocks` on: the pacing guard.
`nTimePast` is an `int`; it is compared with the `unsigned int` `nHashInterval` after
conversion to `unsigned int`, and the pause `std::min(nHashInterval - nTimePast,
(unsigned int)5) * 1000` is computed in `unsigned int`. -/
def maintenancePacing (o : Oracles) (reads : MaintenanceReads) (self : Manager) :
    Option MaintenanceResult :=
  -- search our map of hashed blocks, see if bestblock has been hashed yet
  if mapCount self.mapHashedBlocks reads.tipHeightCount ≠ 0 ∧ self.fLastLoopOrphan = false then
    -- wait max 5 seconds if recently hashed
    let access := mapIndex self.mapHashedBlocks reads.tipHeightIndex
    let self1 := { self with mapHashedBlocks := access.1 }
    let nTimePast := toI32 (reads.time - access.2)
    if toU32 nTimePast < self.nHashInterval ∧ nTimePast ≥ 0 then
      some { status := MaintenanceStatus.returns, self := self1,
             trace := [MaintenanceEvent.sleep
               (wrapU32 (min (wrapU32 (self.nHashInterval + 4294967296 - toU32 nTimePast)) 5 * 1000))] }
    else maintenanceEligibility o reads self1
  else maintenanceEligibility o reads self

/-- The function `CStakingManager::DoMaintenance`.  The result is `none` only when a
kernel search exhausts its iteration bound. -/
def DoMaintenance (o : Oracles) (reads : MaintenanceReads) (self : Manager) :
    Option MaintenanceResult :=
  if !self.fEnableStaking then
    some { status := MaintenanceStatus.returns, self := self, trace := [] }
  else if !self.pwallet then
    some { status := MaintenanceStatus.undefined, self := self, trace := [] }
  else
    let fHaveConnections := match reads.nodeCount with
      | none => false
      | some n => decide (n > 0)
    match reads.tip with
    | none => some (maintenanceGated self)
    | some pindexPrev =>
      if reads.isLocked || !reads.isSynced || !fHaveConnections
          || decide (self.nReserveBalance ≥ reads.balance) then
        some (maintenanceGated self)
      else
        let nStakeHeight := pindexPrev.nHeight + 1
        let fPosPhase := decide (nStakeHeight ≥ o.POSStartHeight)
          || decide (nStakeHeight ≥ o.POSPOWStartHeight)
        if !fPosPhase then
          -- no POS for at least 1 block
          some (maintenanceGated self)
        else maintenancePacing o reads self

/-! ## Reachable states of the manager -/

/-- One step of the manager: a call of one of its member functions that ends with a
return or an exception, with arbitrary arguments and collaborator answers. -/
inductive Step (o : Oracles) : Manager → Manager → Prop where
  | updatedBlockTip (self : Manager) (pindex : CBlockIndex) :
      Step o self (UpdatedBlockTip self pindex)
  | stake (self : Manager) (live : StakeReads) (pindexPrev : CBlockIndex)
      (stakeInput : StakeInput) (nBits nTimeTx hashProofOfStake : Nat) (r : StakeResult) :
      Stake o live pindexPrev stakeInput nBits nTimeTx hashProofOfStake self.mapHashedBlocks
        = some r →
      Step o self { self with mapHashedBlocks := r.mapHashedBlocks }
  | createCoinStake (self : Manager) (reads : CoinStakeReads) (pindexPrev : Option CBlockIndex)
      (coinstakeTx : CMutableTransaction) (coinstakeInput : Option StakeInput)
      (r : CoinStakeResult) :
      CreateCoinStake o reads self pindexPrev coinstakeTx coinstakeInput = some r →
      Step o self r.self
  | isStaking (self : Manager) (reads : IsStakingReads) :
      Step o self self
  | doMaintenance (self : Manager) (reads : MaintenanceReads) (r : MaintenanceResult) :
      DoMaintenance o reads self = some r → r.status ≠ MaintenanceStatus.undefined →
      Step o self r.self

/-- The states reachable from the state `s0` by steps of the manager. -/
inductive ReachableFrom (o : Oracles) (s0 : Manager) : Manager → Prop where
  | start : ReachableFrom o s0 s0
  | step (s t : Manager) : ReachableFrom o s0 s → Step o s t → ReachableFrom o s0 t

/-! ## Concrete scenarios

Collaborators and inputs used to evaluate the definitions. -/

/-- Collaborators of a scenario: every output is mature, the kernel check of a stake input
passes on the timestamps selected by `kernel` and leaves the timestamp in the hash,
payout construction appends one output of the full value, input construction succeeds on
the stake inputs selected by `txIn`, every draft has size 100 of at most 100000, and
proof of stake is active from height 0. -/
def scenarioOracles (kernel : StakeInput → Nat → Bool) (txIn : StakeInput → Bool) : Oracles :=
  { HasStakeMinAgeOrDepth := fun _ _ _ _ => true
    CheckStakeKernelHash := fun _ _ s t _ => (kernel s t, t)
    GetNextWorkRequired := fun _ => 0
    CreateTxOuts := fun s vout n => (true, vout ++ [{ nValue := n, scriptPubKey := [s.txFrom] }])
    CreateTxIn := fun s _ =>
      if txIn s then some { prevoutHash := s.txFrom, prevoutN := s.nPosition } else none
    GetSerializeSize := fun _ => 100
    GetHash := fun _ => 7
    MAX_STANDARD_TX_SIZE := 100000
    nBlockStakeModifierV2 := 0
    nStakeMinDepth := 1
    POSStartHeight := 0
    POSPOWStartHeight := 0 }

/-- Reads of a kernel search during which the chain height stays `height` and both clocks
show `now`. -/
def steadyReads (height : Int) (now : Int) : StakeReads :=
  { Height := fun _ => height, adjustedTime := now, tipHeight := height, time := now }

/-- Reads of a kernel search during which a new block arrives: the first `n` evaluations
of the chain height answer `height`, the later ones `height + 1`. -/
def tipChangeReads (height : Int) (now : Int) (n : Nat) : StakeReads :=
  { Height := fun k => if k < n then height else height + 1, adjustedTime := now,
    tipHeight := height + 1, time := now }

/-- The previous block of the scenarios: height 10, time 900. -/
def scenarioPrev : CBlockIndex := { nHeight := 10, nTime := 900 }

/-- A wallet output of transaction `tx` with value `nValue`, confirmed in block 5 of
time 500. -/
def scenarioOutput (tx : Nat) (nValue : Int) : COutput :=
  { tx := tx, i := 0, nValue := nValue, isZerocoinSpend := false, isInMainChain := true,
    utxoBlock := some { nHeight := 5, nTime := 500 },
    stakeIndexFrom := some { nHeight := 5, nTime := 500 } }

/-- Reads of the selector: the wallet offers `vCoins` at every minimum depth, the
adjusted time is `now` and the chain height `height`. -/
def scenarioWallet (vCoins : List COutput) (now : Int) (height : Int) : WalletReads :=
  { Height := height, AvailableCoins := fun _ => vCoins, adjustedTime := now }

/-- Reads of a coinstake construction: the wallet has balance `balance` and offers
`vCoins`, both clocks show `now`, the chain height stays `height`, the wallet is unlocked
and neither shutdown nor interruption is requested. -/
def scenarioCoinStakeReads (balance : Int) (vCoins : List COutput) (now : Int) (height : Int) :
    CoinStakeReads :=
  { balance := balance, wallet := scenarioWallet vCoins now height, adjustedTime := now,
    isLocked := fun _ => false, shutdownRequested := fun _ => false,
    interruptionRequested := fun _ => false, stake := fun _ => steadyReads height now }

/-- A manager constructed with a wallet at adjusted time 1000, then configured with
staking enabled and the given reserve balance. -/
def scenarioManager (nReserveBalance : Int) : Manager :=
  { Manager.construct true 1000 with fEnableStaking := true, nReserveBalance := nReserveBalance }

/-- A draft transaction before `CreateCoinStake` writes to it. -/
def scenarioDraft : CMutableTransaction := { vin := [], vout := [], nTime := 0 }

/-- Reads of a maintenance cycle of a ready node (unlocked wallet of balance 5000, synced,
8 peers, a block template that is signed and accepted): the tip height is
`tipHeightCount` up to the `count` of the pacing guard and `tipHeightIndex` from its
`operator[]` on, both clocks show `now`, and the wallet offers `vCoins`. -/
def scenarioMaintenanceReads (tipHeightCount tipHeightIndex : Int) (now : Int)
    (vCoins : List COutput) : MaintenanceReads :=
  { tip := some { nHeight := tipHeightCount, nTime := 900 }, nodeCount := some 8,
    isLocked := false, isSynced := true, balance := 5000,
    tipHeightCount := tipHeightCount, tipHeightIndex := tipHeightIndex, time := now,
    mintable := scenarioWallet vCoins now tipHeightIndex, adjustedTime := now,
    newTransaction := scenarioDraft,
    tipCreate := some { nHeight := tipHeightIndex, nTime := 900 },
    coinStake := scenarioCoinStakeReads 5000 vCoins now tipHeightIndex,
    CreateNewBlock := fun _ _ => BlockTemplateAnswer.block,
    GetKeyIDFromUTXO := true, GetKey := true, Sign := true, ProcessNewBlock := true }

/-- Collaborators of a scenario like `scenarioOracles`, except that payout construction
fails, leaving `vout` as it is, on the stake inputs rejected by `payout`. -/
def payoutOracles (kernel : StakeInput → Nat → Bool) (payout : StakeInput → Bool) : Oracles :=
  { scenarioOracles kernel (fun _ => true) with
    CreateTxOuts := fun s vout n =>
      if payout s then (true, vout ++ [{ nValue := n, scriptPubKey := [s.txFrom] }])
      else (false, vout) }

/-- Reads of a maintenance cycle at tip height 10 and time 1030 whose wallet offers one
output of value 4000 and whose signed block is rejected by `ProcessNewBlock`. -/
def rejectingReads : MaintenanceReads :=
  { scenarioMaintenanceReads 10 10 1030 [scenarioOutput 1 4000] with ProcessNewBlock := false }

/-- The manager after the cycle of `rejectingReads`, run from `scenarioManager 1000`: the
orphan flag is set and the record says that height 10 was hashed at time 1030. -/
def afterRejection : Manager :=
  { scenarioManager 1000 with
    fLastLoopOrphan := true, nLastCoinStakeSearchInterval := 30,
    nLastCoinStakeSearchTime := 1030, mapHashedBlocks := [(10, 1030)] }

/-- The outcome of the cycle of `rejectingReads`, run from `scenarioManager 1000` with a
kernel that passes at 1030. -/
def rejectedCycle : MaintenanceResult :=
  { status := MaintenanceStatus.returns, self := afterRejection,
    trace := [MaintenanceEvent.mintableCoins,
              MaintenanceEvent.createCoinStake
                [CoinStakeEvent.getBalance, CoinStakeEvent.selectStakeCoins 4000 11,
                 CoinStakeEvent.stake (SetInput (scenarioOutput 1 4000)) 1030
                   [StakeEvent.height 10, StakeEvent.kernel 1030 true],
                 CoinStakeEvent.createTxOuts (SetInput (scenarioOutput 1 4000)),
                 CoinStakeEvent.createTxIn (SetInput (scenarioOutput 1 4000))],
              MaintenanceEvent.createNewBlock, MaintenanceEvent.processNewBlock false,
              MaintenanceEvent.sleep 10000] }

/-! ## Notions used to state the properties -/

/-- A maintenance cycle passes the readiness gates: staking is enabled, the wallet is
present and unlocked, a chain tip is known, the node is synced and has at least one
connection, the balance exceeds the reserve, and the next block height has reached
`POSStartHeight` or `POSPOWStartHeight`. -/
def Ready (o : Oracles) (reads : MaintenanceReads) (self : Manager) : Prop :=
  self.fEnableStaking = true ∧ self.pwallet = true ∧ reads.isLocked = false
  ∧ reads.isSynced = true ∧ (∃ n, reads.nodeCount = some n ∧ 0 < n)
  ∧ self.nReserveBalance < reads.balance
  ∧ ∃ p, reads.tip = some p
      ∧ (o.POSStartHeight ≤ p.nHeight + 1 ∨ o.POSPOWStartHeight ≤ p.nHeight + 1)

/-- Whether an event of the search loop is a call of the kernel-hash check. -/
def StakeEvent.isKernel : StakeEvent → Bool
  | StakeEvent.kernel _ _ => true
  | StakeEvent.height _ => false

/-- The timestamp of a call of the kernel-hash check, absent for the other events. -/
def StakeEvent.kernelTime : StakeEvent → Option Nat
  | StakeEvent.kernel t _ => some t
  | StakeEvent.height _ => none

/-- Whether an output passes the maturity check of the selector: its origin block is known
and `HasStakeMinAgeOrDepth(blockHeight, adjustedTime, originHeight, originTime)` holds. -/
def outputMature (o : Oracles) (adjustedTime blockHeight : Int) (out : COutput) : Bool :=
  match out.utxoBlock with
  | some utxoBlock =>
    o.HasStakeMinAgeOrDepth blockHeight adjustedTime utxoBlock.nHeight utxoBlock.nTime
  | none => false

/-- The skip-don't-clip greedy reference, written from the words of the specification and
not from the source: scanning the outputs in order with a running sum, an output is
included, and its value added to the running sum, if and only if running sum + value does
not exceed the target, it is not an unconfirmed zerocoin redemption, and it passes the
maturity check; any other output is skipped and the scan continues. -/
def greedyReference (o : Oracles) (adjustedTime nTargetAmount blockHeight : Int) :
    List COutput → Int → List COutput
  | [], _ => []
  | out :: rest, sum =>
    if sum + out.nValue ≤ nTargetAmount
        ∧ ¬ (out.isZerocoinSpend = true ∧ out.isInMainChain = false)
        ∧ outputMature o adjustedTime blockHeight out = true then
      out :: greedyReference o adjustedTime nTargetAmount blockHeight rest (sum + out.nValue)
    else greedyReference o adjustedTime nTargetAmount blockHeight rest sum

/-! ## Theorems: kernel search -/

theorem wrapU32_le (n : Nat) : wrapU32 n ≤ n := Nat.mod_le _ _

theorem wrapU32_lt (n : Nat) : wrapU32 n < 4294967296 := Nat.mod_lt _ (by decide)

theorem wrapU32_of_lt {n : Nat} (h : n < 4294967296) : wrapU32 n = n := Nat.mod_eq_of_lt h

theorem stakeMaxTime_lt (nTimeTx : Nat) (adjustedTime : Int) :
    stakeMaxTime nTimeTx adjustedTime < 4294967296 :=
  lt_of_le_of_lt (min_le_left _ _) (wrapU32_lt _)

/-- The search loop ends within `maxTime - nTryTime` iterations. -/
theorem stakeLoop_isSome (check : Nat → Nat → Bool × Nat) (Height : Nat → Int) (prevHeight : Int)
    (maxTime : Nat) (hmax : maxTime < 4294967296) :
    ∀ (fuel nTryTime hash reads : Nat), maxTime - nTryTime ≤ fuel →
      ∃ x, stakeLoop check Height prevHeight maxTime fuel nTryTime hash reads = some x := by
  intro fuel
  induction fuel with
  | zero =>
    intro nTryTime hash reads h
    have : ¬ nTryTime < maxTime := by omega
    simp [stakeLoop, this]
  | succ fuel ih =>
    intro nTryTime hash reads h
    unfold stakeLoop
    by_cases hlt : nTryTime < maxTime
    · by_cases hh : Height reads ≠ prevHeight
      · simp [hlt, hh]
      · have hw : wrapU32 (nTryTime + 1) = nTryTime + 1 := wrapU32_of_lt (by omega)
        by_cases hk : (check (wrapU32 (nTryTime + 1)) hash).1 = true
        · simp [hlt, hh, hk]
        · obtain ⟨x, hx⟩ := ih (wrapU32 (nTryTime + 1))
            (check (wrapU32 (nTryTime + 1)) hash).2 (reads + 1) (by rw [hw]; omega)
          simp [hlt, hh, hk, hx]
    · simp [hlt]

/-- A successful loop exit has a loop variable in `(nTryTime, maxTime]`. -/
theorem stakeLoop_success_bounds (check : Nat → Nat → Bool × Nat) (Height : Nat → Int)
    (prevHeight : Int) (maxTime : Nat) (hmax : maxTime < 4294967296) :
    ∀ (fuel nTryTime hash reads : Nat) (x : StakeLoopExit),
      stakeLoop check Height prevHeight maxTime fuel nTryTime hash reads = some x →
      x.fSuccess = true → nTryTime < x.nTryTime ∧ x.nTryTime ≤ maxTime := by
  intro fuel
  induction fuel with
  | zero =>
    intro nTryTime hash reads x h hs
    unfold stakeLoop at h
    split_ifs at h
    cases h
    simp at hs
  | succ fuel ih =>
    intro nTryTime hash reads x h hs
    unfold stakeLoop at h
    by_cases hlt : nTryTime < maxTime
    · have hw : wrapU32 (nTryTime + 1) = nTryTime + 1 := wrapU32_of_lt (by omega)
      by_cases hh : Height reads ≠ prevHeight
      · simp [hlt, hh] at h
        subst h
        simp at hs
      · by_cases hk : (check (wrapU32 (nTryTime + 1)) hash).1 = true
        · simp [hlt, hh, hk] at h
          subst h
          simp only [hw]
          omega
        · simp [hlt, hh, hk] at h
          obtain ⟨y, hy, rfl⟩ := h
          have := ih _ _ _ y hy (by simpa [StakeLoopExit.after] using hs)
          simp only [StakeLoopExit.after]
          rw [hw] at this
          omega
    · simp [hlt] at h
      subst h
      simp at hs

/-- In the events of the search loop, a height answer that differs from `prevHeight` is the
last event, and the loop then ends without success. -/
theorem stakeLoop_abort (check : Nat → Nat → Bool × Nat) (Height : Nat → Int)
    (prevHeight : Int) (maxTime : Nat) :
    ∀ (fuel nTryTime hash reads : Nat) (x : StakeLoopExit),
      stakeLoop check Height prevHeight maxTime fuel nTryTime hash reads = some x →
      ∀ (pre post : List StakeEvent) (h : Int),
        x.trace = pre ++ StakeEvent.height h :: post → h ≠ prevHeight →
        x.fSuccess = false ∧ post = [] := by
  intro fuel
  induction fuel with
  | zero =>
    intro nTryTime hash reads x hx pre post h htr hne
    unfold stakeLoop at hx
    split_ifs at hx
    cases hx
    simp at htr
  | succ fuel ih =>
    intro nTryTime hash reads x hx pre post h htr hne
    unfold stakeLoop at hx
    by_cases hlt : nTryTime < maxTime
    · by_cases hh : Height reads ≠ prevHeight
      · simp [hlt, hh] at hx
        subst hx
        simp at htr ⊢
        rcases pre with _ | ⟨e, pre⟩
        · simp at htr; exact htr.2
        · simp at htr
      · have hh' : Height reads = prevHeight := not_not.mp hh
        by_cases hk : (check (wrapU32 (nTryTime + 1)) hash).1 = true
        · simp [hlt, hh, hk] at hx
          subst hx
          simp at htr ⊢
          rcases pre with _ | ⟨e, pre⟩
          · simp at htr; exact absurd htr.1.symm (by rw [hh']; exact hne)
          · rcases pre with _ | ⟨e2, pre⟩
            · simp at htr
            · simp at htr
        · simp [hlt, hh, hk] at hx
          obtain ⟨y, hy, rfl⟩ := hx
          simp [StakeLoopExit.after] at htr ⊢
          rcases pre with _ | ⟨e, pre⟩
          · simp at htr; exact absurd htr.1.symm (by rw [hh']; exact hne)
          · rcases pre with _ | ⟨e2, pre⟩
            · simp at htr
            · simp at htr
              exact ih _ _ _ y hy pre post h htr.2.2 hne
    · simp [hlt] at hx
      subst hx
      simp at htr


theorem toU32_lt (x : Int) : toU32 x < 4294967296 := by
  unfold toU32
  have h1 : 0 ≤ x % 4294967296 := Int.emod_nonneg _ (by decide)
  have h2 : x % 4294967296 < 4294967296 := Int.emod_lt_of_pos _ (by decide)
  omega

theorem mapAssign_clear (m : HashedBlocks) (k v : Int) : mapAssign (mapClear m) k v = [(k, v)] := by
  simp [mapAssign, mapClear, mapIndex, mapInsert]

/-- The kernel search always ends: `Stake` yields an outcome on every input. -/
theorem Stake_isSome (o : Oracles) (live : StakeReads) (pindexPrev : CBlockIndex)
    (stakeInput : StakeInput) (nBits nTimeTx hashProofOfStake : Nat)
    (mapHashedBlocks : HashedBlocks) :
    ∃ r, Stake o live pindexPrev stakeInput nBits nTimeTx hashProofOfStake mapHashedBlocks
      = some r := by
  unfold Stake
  rcases hfrom : stakeInput.indexFrom with _ | f
  · simp
  · by_cases h1 : f.nHeight < 1
    · simp [h1]
    · by_cases h2 : o.HasStakeMinAgeOrDepth (pindexPrev.nHeight + 1) nTimeTx f.nHeight f.nTime = true
      · obtain ⟨x, hx⟩ := stakeLoop_isSome (o.CheckStakeKernelHash pindexPrev nBits stakeInput)
          live.Height pindexPrev.nHeight (stakeMaxTime nTimeTx live.adjustedTime)
          (stakeMaxTime_lt _ _)
          (stakeMaxTime nTimeTx live.adjustedTime - stakeTryStart nTimeTx)
          (stakeTryStart nTimeTx) hashProofOfStake 0 le_rfl
        simp [h1, h2, hx]
      · simp [h1, h2]

/-- When `Stake` passes its preconditions, its outcome is the exit of the search loop. -/
theorem Stake_eq_some_cases (o : Oracles) (live : StakeReads) (pindexPrev : CBlockIndex)
    (stakeInput : StakeInput) (nBits nTimeTx hashProofOfStake : Nat)
    (mapHashedBlocks : HashedBlocks) (r : StakeResult)
    (h : Stake o live pindexPrev stakeInput nBits nTimeTx hashProofOfStake mapHashedBlocks
      = some r) :
    (r = { found := false, nTimeTx := nTimeTx, hashProofOfStake := hashProofOfStake,
           mapHashedBlocks := mapHashedBlocks, trace := [] }
      ∧ ∀ f, stakeInput.indexFrom = some f → 1 ≤ f.nHeight →
          o.HasStakeMinAgeOrDepth (pindexPrev.nHeight + 1) nTimeTx f.nHeight f.nTime = false)
    ∨ ∃ x, stakeLoop (o.CheckStakeKernelHash pindexPrev nBits stakeInput) live.Height
          pindexPrev.nHeight (stakeMaxTime nTimeTx live.adjustedTime)
          (stakeMaxTime nTimeTx live.adjustedTime - stakeTryStart nTimeTx)
          (stakeTryStart nTimeTx) hashProofOfStake 0 = some x
        ∧ r = { found := x.fSuccess, nTimeTx := if x.fSuccess then x.nTryTime else nTimeTx,
                hashProofOfStake := x.hashProofOfStake,
                mapHashedBlocks := [(live.tipHeight, live.time)], trace := x.trace } := by
  unfold Stake at h
  rcases hfrom : stakeInput.indexFrom with _ | f
  · simp [hfrom] at h
    exact Or.inl ⟨h.symm, by intro f hf; simp at hf⟩
  · by_cases h1 : f.nHeight < 1
    · simp [hfrom, h1] at h
      refine Or.inl ⟨h.symm, ?_⟩
      intro g hg hge
      simp at hg
      subst hg
      omega
    · by_cases h2 : o.HasStakeMinAgeOrDepth (pindexPrev.nHeight + 1) nTimeTx f.nHeight f.nTime = true
      · rcases hx : stakeLoop (o.CheckStakeKernelHash pindexPrev nBits stakeInput) live.Height
          pindexPrev.nHeight (stakeMaxTime nTimeTx live.adjustedTime)
          (stakeMaxTime nTimeTx live.adjustedTime - stakeTryStart nTimeTx)
          (stakeTryStart nTimeTx) hashProofOfStake 0 with _ | x
        · simp [hfrom, h1, h2, hx] at h
        · simp [hfrom, h1, h2, hx, mapAssign_clear] at h
          exact Or.inr ⟨x, rfl, h.symm⟩
      · simp [hfrom, h1, h2] at h
        refine Or.inl ⟨h.symm, ?_⟩
        intro g hg _
        simp at hg
        subst hg
        simpa using h2

/-- C1, as stated, fails: with start time 1000 and adjusted time 1000 the window of the
claim is `[1000, 1060)`, yet a kernel that passes first at 1060 is found and 1060 is written
back to `nTimeTx`. -/
theorem Stake_window_upper_bound_is_attained :
    (Stake (scenarioOracles (fun _ t => t == 1060) (fun _ => true)) (steadyReads 10 1000)
        scenarioPrev (SetInput (scenarioOutput 1 100)) 0 1000 0 []).map
        (fun r => (r.found, r.nTimeTx)) = some (true, 1060)
    ∧ ¬ ((1060 : Nat) < min (1000 + 60) (1000 + 180)) := by
  decide

/-- C1 (amended): the kernel search always ends, and when it returns `found = true` the
winning timestamp `t` written back to `nTimeTx` satisfies
`startTime ≤ t ≤ min(startTime + 60, now + 180)`: the window is closed at its upper end
(`now` is the adjusted time converted to `uint32_t`). -/
theorem Stake_winning_time_in_closed_window (o : Oracles) (live : StakeReads)
    (pindexPrev : CBlockIndex) (stakeInput : StakeInput) (nBits nTimeTx hashProofOfStake : Nat)
    (mapHashedBlocks : HashedBlocks) (hT : nTimeTx < 4294967296) :
    (∃ r, Stake o live pindexPrev stakeInput nBits nTimeTx hashProofOfStake mapHashedBlocks
      = some r)
    ∧ ∀ r, Stake o live pindexPrev stakeInput nBits nTimeTx hashProofOfStake mapHashedBlocks
        = some r → r.found = true →
        nTimeTx ≤ r.nTimeTx ∧ r.nTimeTx ≤ min (nTimeTx + 60) (toU32 live.adjustedTime + 180) := by
  refine ⟨Stake_isSome _ _ _ _ _ _ _ _, ?_⟩
  intro r h hf
  rcases Stake_eq_some_cases _ _ _ _ _ _ _ _ _ h with ⟨hr, _⟩ | ⟨x, hx, hr⟩
  · subst hr
    simp at hf
  · subst hr
    simp only at hf ⊢
    have hb := stakeLoop_success_bounds _ _ _ _ (stakeMaxTime_lt _ _) _ _ _ _ x hx hf
    have hmax : stakeMaxTime nTimeTx live.adjustedTime
        ≤ min (nTimeTx + 60) (toU32 live.adjustedTime + 180) := by
      unfold stakeMaxTime
      exact min_le_min (wrapU32_le _) (wrapU32_le _)
    have hlt := stakeMaxTime_lt nTimeTx live.adjustedTime
    have hstart : nTimeTx ≤ stakeTryStart nTimeTx + 1 := by
      unfold stakeTryStart wrapU32
      omega
    rw [if_pos hf]
    omega

/-- Witness for C1: a search from start time 1000 at adjusted time 1000 whose kernel passes
first at 1003 returns `found = true` with `t = 1003`. -/
theorem Stake_winning_time_in_closed_window_witness :
    (1000 : Nat) < 4294967296
    ∧ Stake (scenarioOracles (fun _ t => t == 1003) (fun _ => true)) (steadyReads 10 1000)
        scenarioPrev (SetInput (scenarioOutput 1 100)) 0 1000 0 []
      = some { found := true, nTimeTx := 1003, hashProofOfStake := 1003,
               mapHashedBlocks := [(10, 1000)],
               trace := [StakeEvent.height 10, StakeEvent.kernel 1000 false,
                         StakeEvent.height 10, StakeEvent.kernel 1001 false,
                         StakeEvent.height 10, StakeEvent.kernel 1002 false,
                         StakeEvent.height 10, StakeEvent.kernel 1003 true] }
    ∧ (1000 ≤ 1003 ∧ 1003 ≤ min (1000 + 60) (toU32 (steadyReads 10 1000).adjustedTime + 180)) :=
  ⟨by decide, by decide,
   (Stake_winning_time_in_closed_window
      (scenarioOracles (fun _ t => t == 1003) (fun _ => true)) (steadyReads 10 1000)
      scenarioPrev (SetInput (scenarioOutput 1 100)) 0 1000 0 [] (by decide)).2
      { found := true, nTimeTx := 1003, hashProofOfStake := 1003,
        mapHashedBlocks := [(10, 1000)],
        trace := [StakeEvent.height 10, StakeEvent.kernel 1000 false,
                  StakeEvent.height 10, StakeEvent.kernel 1001 false,
                  StakeEvent.height 10, StakeEvent.kernel 1002 false,
                  StakeEvent.height 10, StakeEvent.kernel 1003 true] }
      (by decide) rfl⟩

/-- C2: the kernel search always ends, and for every sequence of live chain heights, if a
height read before testing a candidate timestamp differs from the height of `pindexPrev`,
then that read is the last event of the search (the kernel check is invoked on no further
timestamp), the search returns `found = false`, and `nTimeTx` is left unchanged. -/
theorem Stake_aborts_when_tip_changes (o : Oracles) (live : StakeReads)
    (pindexPrev : CBlockIndex) (stakeInput : StakeInput) (nBits nTimeTx hashProofOfStake : Nat)
    (mapHashedBlocks : HashedBlocks) :
    (∃ r, Stake o live pindexPrev stakeInput nBits nTimeTx hashProofOfStake mapHashedBlocks
      = some r)
    ∧ ∀ r, Stake o live pindexPrev stakeInput nBits nTimeTx hashProofOfStake mapHashedBlocks
        = some r →
      ∀ (pre post : List StakeEvent) (h : Int),
        r.trace = pre ++ StakeEvent.height h :: post → h ≠ pindexPrev.nHeight →
        r.found = false ∧ post = [] ∧ r.nTimeTx = nTimeTx := by
  refine ⟨Stake_isSome _ _ _ _ _ _ _ _, ?_⟩
  intro r hr pre post h htr hne
  rcases Stake_eq_some_cases _ _ _ _ _ _ _ _ _ hr with ⟨hr, _⟩ | ⟨x, hx, hr⟩
  · subst hr
    simp at htr
  · subst hr
    simp only at htr ⊢
    obtain ⟨hf, hp⟩ := stakeLoop_abort _ _ _ _ _ _ _ _ x hx pre post h htr hne
    simp [hf, hp]

/-- Witness for C2: the chain height changes from 10 to 11 after two candidate timestamps
have been tested; the search stops at the third read, before the timestamp 1002 on which
the kernel would pass. -/
theorem Stake_aborts_when_tip_changes_witness :
    Stake (scenarioOracles (fun _ t => t == 1002) (fun _ => true)) (tipChangeReads 10 1000 2)
        scenarioPrev (SetInput (scenarioOutput 1 100)) 0 1000 0 []
      = some { found := false, nTimeTx := 1000, hashProofOfStake := 1001,
               mapHashedBlocks := [(11, 1000)],
               trace := [StakeEvent.height 10, StakeEvent.kernel 1000 false,
                         StakeEvent.height 10, StakeEvent.kernel 1001 false]
                        ++ StakeEvent.height 11 :: [] }
    ∧ ((11 : Int) ≠ scenarioPrev.nHeight)
    ∧ (false = false ∧ ([] : List StakeEvent) = [] ∧ (1000 : Nat) = 1000) :=
  ⟨by decide, by decide,
   (Stake_aborts_when_tip_changes
      (scenarioOracles (fun _ t => t == 1002) (fun _ => true)) (tipChangeReads 10 1000 2)
      scenarioPrev (SetInput (scenarioOutput 1 100)) 0 1000 0 []).2
      { found := false, nTimeTx := 1000, hashProofOfStake := 1001,
        mapHashedBlocks := [(11, 1000)],
        trace := [StakeEvent.height 10, StakeEvent.kernel 1000 false,
                  StakeEvent.height 10, StakeEvent.kernel 1001 false]
                 ++ StakeEvent.height 11 :: [] }
      (by decide)
      [StakeEvent.height 10, StakeEvent.kernel 1000 false,
       StakeEvent.height 10, StakeEvent.kernel 1001 false] [] 11 rfl (by decide)⟩

/-- The running sum of the selection loop never exceeds the target. -/
theorem selectLoop_sum_le (o : Oracles) (adjustedTime nTargetAmount blockHeight : Int) :
    ∀ (vCoins : List COutput) (nAmountSelected : Int), nAmountSelected ≤ nTargetAmount →
      nAmountSelected
        + ((selectLoop o adjustedTime nTargetAmount blockHeight vCoins nAmountSelected).2.map
            StakeInput.nValue).sum ≤ nTargetAmount := by
  intro vCoins
  induction vCoins with
  | nil => intro n h; simpa [selectLoop] using h
  | cons out rest ih =>
    intro n h
    unfold selectLoop
    by_cases h1 : n + out.nValue > nTargetAmount
    · simpa [h1] using ih n h
    · by_cases h2 : (out.isZerocoinSpend && !out.isInMainChain) = true
      · simpa [h1, h2] using ih n h
      · rcases hb : out.utxoBlock with _ | b
        · simpa [h1, h2, hb] using h
        · by_cases h3 : o.HasStakeMinAgeOrDepth blockHeight adjustedTime b.nHeight b.nTime = true
          · have := ih (n + out.nValue) (by omega)
            simp [h1, h2, hb, h3, SetInput]
            simp at this
            omega
          · simpa [h1, h2, hb, h3] using ih n h

/-- The inputs emplaced by the selection loop come, in order, from outputs that pass the
maturity check and are not unconfirmed zerocoin spends. -/
theorem selectLoop_sublist (o : Oracles) (adjustedTime nTargetAmount blockHeight : Int) :
    ∀ (vCoins : List COutput) (nAmountSelected : Int),
      ∃ sel : List COutput, sel.Sublist vCoins
        ∧ (selectLoop o adjustedTime nTargetAmount blockHeight vCoins nAmountSelected).2
            = sel.map SetInput
        ∧ ∀ out ∈ sel,
            (∃ b, out.utxoBlock = some b
              ∧ o.HasStakeMinAgeOrDepth blockHeight adjustedTime b.nHeight b.nTime = true)
            ∧ ¬ (out.isZerocoinSpend = true ∧ out.isInMainChain = false) := by
  intro vCoins
  induction vCoins with
  | nil => intro n; exact ⟨[], List.Sublist.slnil, by simp [selectLoop], by simp⟩
  | cons out rest ih =>
    intro n
    unfold selectLoop
    by_cases h1 : n + out.nValue > nTargetAmount
    · obtain ⟨sel, hs, he, hp⟩ := ih n
      exact ⟨sel, hs.cons _, by simpa [h1] using he, hp⟩
    · by_cases h2 : (out.isZerocoinSpend && !out.isInMainChain) = true
      · obtain ⟨sel, hs, he, hp⟩ := ih n
        exact ⟨sel, hs.cons _, by simpa [h1, h2] using he, hp⟩
      · rcases hb : out.utxoBlock with _ | b
        · exact ⟨[], List.nil_sublist _, by simp [h1, h2, hb], by simp⟩
        · by_cases h3 : o.HasStakeMinAgeOrDepth blockHeight adjustedTime b.nHeight b.nTime = true
          · obtain ⟨sel, hs, he, hp⟩ := ih (n + out.nValue)
            refine ⟨out :: sel, hs.cons₂ _, by simp [h1, h2, hb, h3, he], ?_⟩
            intro x hx
            rcases List.mem_cons.mp hx with rfl | hx
            · refine ⟨⟨b, hb, h3⟩, ?_⟩
              intro hz
              simp [hz.1, hz.2] at h2
            · exact hp x hx
          · obtain ⟨sel, hs, he, hp⟩ := ih n
            exact ⟨sel, hs.cons _, by simpa [h1, h2, hb, h3] using he, hp⟩

/-- C3: for every list of wallet outputs, every non-negative target amount and every spend
height, the values of the stake inputs that `SelectStakeCoins` leaves in an initially
empty list sum to at most the target amount.  (The bound does not need the values to be
non-negative.) -/
theorem SelectStakeCoins_sum_le_target (o : Oracles) (w : WalletReads) (pwallet : Bool)
    (nTargetAmount blockHeight : Int) (hTarget : 0 ≤ nTargetAmount) :
    ((SelectStakeCoins o w pwallet [] nTargetAmount blockHeight).2.map StakeInput.nValue).sum
      ≤ nTargetAmount := by
  unfold SelectStakeCoins
  cases pwallet
  · simpa using hTarget
  · have := selectLoop_sum_le o w.adjustedTime nTargetAmount blockHeight
      (w.AvailableCoins (nMinDepth o blockHeight)) 0 hTarget
    simpa using this

/-- Witness for C3: outputs of 3000, 2000 and 500 against a target of 4000; the selector
takes 3000, skips 2000 and takes 500. -/
theorem SelectStakeCoins_sum_le_target_witness :
    (0 : Int) ≤ 4000
    ∧ SelectStakeCoins (scenarioOracles (fun _ _ => true) (fun _ => true))
        (scenarioWallet [scenarioOutput 1 3000, scenarioOutput 2 2000, scenarioOutput 3 500] 1000 10)
        true [] 4000 11
      = (Completion.returns true,
         [SetInput (scenarioOutput 1 3000), SetInput (scenarioOutput 3 500)])
    ∧ ((SelectStakeCoins (scenarioOracles (fun _ _ => true) (fun _ => true))
        (scenarioWallet [scenarioOutput 1 3000, scenarioOutput 2 2000, scenarioOutput 3 500] 1000 10)
        true [] 4000 11).2.map StakeInput.nValue).sum ≤ 4000 :=
  ⟨by decide, by decide,
   SelectStakeCoins_sum_le_target (scenarioOracles (fun _ _ => true) (fun _ => true))
     (scenarioWallet [scenarioOutput 1 3000, scenarioOutput 2 2000, scenarioOutput 3 500] 1000 10)
     true 4000 11 (by decide)⟩

/-- C4: the stake inputs that `SelectStakeCoins` appends to `listInputs` are built, in the
order of the wallet's output list, from outputs each of which passes
`HasStakeMinAgeOrDepth(blockHeight, adjustedTime, originHeight, originTime)` and is not an
output of a zerocoin spend that is unconfirmed in the main chain. -/
theorem SelectStakeCoins_members_eligible (o : Oracles) (w : WalletReads) (pwallet : Bool)
    (listInputs : List StakeInput) (nTargetAmount blockHeight : Int) :
    ∃ sel : List COutput, sel.Sublist (w.AvailableCoins (nMinDepth o blockHeight))
      ∧ (SelectStakeCoins o w pwallet listInputs nTargetAmount blockHeight).2
          = listInputs ++ sel.map SetInput
      ∧ ∀ out ∈ sel,
          (∃ b, out.utxoBlock = some b
            ∧ o.HasStakeMinAgeOrDepth blockHeight w.adjustedTime b.nHeight b.nTime = true)
          ∧ ¬ (out.isZerocoinSpend = true ∧ out.isInMainChain = false) := by
  unfold SelectStakeCoins
  cases pwallet
  · exact ⟨[], List.nil_sublist _, by simp, by simp⟩
  · obtain ⟨sel, hs, he, hp⟩ := selectLoop_sublist o w.adjustedTime nTargetAmount blockHeight
      (w.AvailableCoins (nMinDepth o blockHeight)) 0
    exact ⟨sel, hs, by simp [he], hp⟩

/-! ## Theorems: coinstake construction -/

/-- While the chain height stays at `prevHeight`, a kernel check that fails on the next
`j` timestamps and passes on the one after, inside the window, ends the loop with success
at that timestamp. -/
theorem stakeLoop_first_pass (check : Nat → Nat → Bool × Nat) (Height : Nat → Int)
    (prevHeight : Int) (maxTime : Nat) (hmax : maxTime < 4294967296)
    (hH : ∀ k, Height k = prevHeight) :
    ∀ (j fuel nTryTime hash reads : Nat), nTryTime + j + 1 ≤ maxTime → j + 1 ≤ fuel →
      (∀ i, i < j → ∀ h, (check (nTryTime + 1 + i) h).1 = false) →
      (∀ h, (check (nTryTime + j + 1) h).1 = true) →
      ∃ x, stakeLoop check Height prevHeight maxTime fuel nTryTime hash reads = some x
        ∧ x.fSuccess = true ∧ x.nTryTime = nTryTime + j + 1 := by
  intro j
  induction j with
  | zero =>
    intro fuel nTryTime hash reads hle hfuel _ hpass
    obtain ⟨fuel, rfl⟩ : ∃ n, fuel = n + 1 := ⟨fuel - 1, by omega⟩
    have hw : wrapU32 (nTryTime + 1) = nTryTime + 1 := wrapU32_of_lt (by omega)
    have hlt : nTryTime < maxTime := by omega
    unfold stakeLoop
    simp [hlt, hH, hw, hpass]
  | succ j ih =>
    intro fuel nTryTime hash reads hle hfuel hfail hpass
    obtain ⟨fuel, rfl⟩ : ∃ n, fuel = n + 1 := ⟨fuel - 1, by omega⟩
    have hw : wrapU32 (nTryTime + 1) = nTryTime + 1 := wrapU32_of_lt (by omega)
    have hlt : nTryTime < maxTime := by omega
    have h0 : (check (nTryTime + 1) hash).1 = false := by simpa using hfail 0 (by omega) hash
    obtain ⟨x, hx, hs, ht⟩ := ih fuel (nTryTime + 1) (check (nTryTime + 1) hash).2 (reads + 1)
      (by omega) (by omega)
      (fun i hi h => by have := hfail (i + 1) (by omega) h; rwa [show nTryTime + 1 + (i + 1) = nTryTime + 1 + 1 + i by omega] at this)
      (fun h => by have := hpass h; rwa [show nTryTime + (j + 1) + 1 = nTryTime + 1 + j + 1 by omega] at this)
    unfold stakeLoop
    simp [hlt, hH, hw, h0, hx, StakeLoopExit.after, hs, ht]
    omega

/-- A kernel search on a stake input that passes the preconditions, during which the chain
height does not change, whose kernel check fails on `nTimeTx, ..., nTimeTx + j - 1` and
passes on `nTimeTx + j` inside the window, returns `found = true` at `nTimeTx + j`. -/
theorem Stake_first_pass (o : Oracles) (live : StakeReads) (pindexPrev : CBlockIndex)
    (stakeInput : StakeInput) (nBits nTimeTx hashProofOfStake : Nat)
    (mapHashedBlocks : HashedBlocks) (f : CBlockIndex) (j : Nat)
    (hfrom : stakeInput.indexFrom = some f) (hheight : 1 ≤ f.nHeight)
    (hmature : o.HasStakeMinAgeOrDepth (pindexPrev.nHeight + 1) nTimeTx f.nHeight f.nTime = true)
    (hT1 : 1 ≤ nTimeTx) (hT : nTimeTx < 4294967296)
    (hwindow : nTimeTx + j ≤ stakeMaxTime nTimeTx live.adjustedTime)
    (htip : ∀ k, live.Height k = pindexPrev.nHeight)
    (hfail : ∀ i, i < j → ∀ h,
      (o.CheckStakeKernelHash pindexPrev nBits stakeInput (nTimeTx + i) h).1 = false)
    (hpass : ∀ h, (o.CheckStakeKernelHash pindexPrev nBits stakeInput (nTimeTx + j) h).1 = true) :
    ∃ r, Stake o live pindexPrev stakeInput nBits nTimeTx hashProofOfStake mapHashedBlocks = some r
      ∧ r.found = true ∧ r.nTimeTx = nTimeTx + j
      ∧ r.mapHashedBlocks = [(live.tipHeight, live.time)] := by
  have hstart : stakeTryStart nTimeTx = nTimeTx - 1 := by
    unfold stakeTryStart wrapU32
    omega
  obtain ⟨x, hx, hs, ht⟩ := stakeLoop_first_pass
    (o.CheckStakeKernelHash pindexPrev nBits stakeInput) live.Height pindexPrev.nHeight
    (stakeMaxTime nTimeTx live.adjustedTime) (stakeMaxTime_lt _ _) htip j
    (stakeMaxTime nTimeTx live.adjustedTime - stakeTryStart nTimeTx) (stakeTryStart nTimeTx)
    hashProofOfStake 0 (by rw [hstart]; omega) (by rw [hstart]; omega)
    (fun i hi h => by
      have := hfail i hi h
      rwa [show nTimeTx + i = stakeTryStart nTimeTx + 1 + i by rw [hstart]; omega] at this)
    (fun h => by
      have := hpass h
      rwa [show nTimeTx + j = stakeTryStart nTimeTx + j + 1 by rw [hstart]; omega] at this)
  have h1 : ¬ f.nHeight < 1 := by omega
  refine ⟨{ found := x.fSuccess, nTimeTx := if x.fSuccess then x.nTryTime else nTimeTx,
            hashProofOfStake := x.hashProofOfStake,
            mapHashedBlocks := [(live.tipHeight, live.time)], trace := x.trace }, ?_, hs, ?_, rfl⟩
  · unfold Stake
    simp [hfrom, h1, hmature, hx, mapAssign_clear]
  · simp [hs, ht, hstart]
    omega

/-- C5, as stated, fails for a reserve balance of 0: with balance 0 and reserve 0 the guard
`nBalance > 0 && nBalance <= nReserveBalance` does not fire and `SelectStakeCoins` is
invoked, with target amount 0. -/
theorem CreateCoinStake_zero_balance_queries_selector :
    (CreateCoinStake (scenarioOracles (fun _ _ => true) (fun _ => true))
        (scenarioCoinStakeReads 0 [scenarioOutput 1 100] 1000 10) (scenarioManager 0)
        (some scenarioPrev) scenarioDraft none).map (fun r => (r.status, r.trace))
      = some (Completion.returns false,
              [CoinStakeEvent.getBalance, CoinStakeEvent.selectStakeCoins 0 11])
    ∧ (scenarioCoinStakeReads 0 [scenarioOutput 1 100] 1000 10).balance
        = (scenarioManager 0).nReserveBalance := by
  decide

/-- C5 (amended): for every positive reserve balance `r`, when the wallet's balance is
exactly `r`, `CreateCoinStake` returns failure without a build attempt: its only wallet
query is the balance, it invokes neither `SelectStakeCoins` nor `Stake`, and the manager is
unchanged. -/
theorem CreateCoinStake_balance_equals_reserve (o : Oracles) (reads : CoinStakeReads)
    (self : Manager) (pindexPrev : Option CBlockIndex) (coinstakeTx : CMutableTransaction)
    (coinstakeInput : Option StakeInput)
    (hpos : 0 < self.nReserveBalance) (heq : reads.balance = self.nReserveBalance) :
    ∃ r, CreateCoinStake o reads self pindexPrev coinstakeTx coinstakeInput = some r
      ∧ r.status = Completion.returns false
      ∧ (∀ e ∈ r.trace, e = CoinStakeEvent.getBalance)
      ∧ r.self = self ∧ r.coinstakeInput = coinstakeInput := by
  unfold CreateCoinStake
  rcases pindexPrev with _ | prev
  · simp
  · by_cases hw : self.pwallet = true
    · simp [hw, heq, hpos]
    · simp [hw]

/-- Witness for C5: balance 1000 and reserve 1000. -/
theorem CreateCoinStake_balance_equals_reserve_witness :
    (0 : Int) < (scenarioManager 1000).nReserveBalance
    ∧ (scenarioCoinStakeReads 1000 [scenarioOutput 1 100] 1000 10).balance
        = (scenarioManager 1000).nReserveBalance
    ∧ ∃ r, CreateCoinStake (scenarioOracles (fun _ _ => true) (fun _ => true))
          (scenarioCoinStakeReads 1000 [scenarioOutput 1 100] 1000 10) (scenarioManager 1000)
          (some scenarioPrev) scenarioDraft none = some r
        ∧ r.status = Completion.returns false
        ∧ (∀ e ∈ r.trace, e = CoinStakeEvent.getBalance)
        ∧ r.self = scenarioManager 1000 ∧ r.coinstakeInput = none :=
  ⟨by decide, by decide,
   CreateCoinStake_balance_equals_reserve (scenarioOracles (fun _ _ => true) (fun _ => true))
     (scenarioCoinStakeReads 1000 [scenarioOutput 1 100] 1000 10) (scenarioManager 1000)
     (some scenarioPrev) scenarioDraft none (by decide) (by decide)⟩

/-- C6, as stated, fails.  With balance 5000 and reserve 1000 the target amount is 4000, so
the selector skips the only output, of value 5000, and `CreateCoinStake` returns failure
without a kernel search.  And with an output of value 4000, a previous block of time 1178
and adjusted time 1000, the start time is 1178 but the window ends at 1180, so a kernel
first satisfied at 1181 = startTime + 3 is not found. -/
theorem CreateCoinStake_spec_values_fail :
    (CreateCoinStake (scenarioOracles (fun _ t => t == 1003) (fun _ => true))
        (scenarioCoinStakeReads 5000 [scenarioOutput 1 5000] 1000 10) (scenarioManager 1000)
        (some scenarioPrev) scenarioDraft none).map
        (fun r => (r.status, r.coinstakeTx.vin, r.trace))
      = some (Completion.returns false, [],
              [CoinStakeEvent.getBalance, CoinStakeEvent.selectStakeCoins 4000 11])
    ∧ coinStakeStartTime 1000 { nHeight := 10, nTime := 1178 } + 3 = 1181
    ∧ (CreateCoinStake (scenarioOracles (fun _ t => t == 1181) (fun _ => true))
        (scenarioCoinStakeReads 5000 [scenarioOutput 1 4000] 1000 10) (scenarioManager 1000)
        (some { nHeight := 10, nTime := 1178 }) scenarioDraft none).map
        (fun r => (r.status, r.coinstakeTx.vin))
      = some (Completion.returns false, []) := by
  decide

/-- C6 (amended): with balance 5000 and reserve 1000, a wallet whose only output is an
eligible (mature, confirmed) stake input of value at most 4000 = balance - reserve, an
unlocked wallet, no shutdown or interruption, an unchanged chain tip, successful payout and
input construction, a draft under the size limit, and a kernel check first satisfied at
`startTime + 3`, where `startTime >= 1` and `startTime + 3` does not exceed the end
`min(startTime + 60, now + 180)` of the search window, `CreateCoinStake` returns success
with a draft whose single input is the one constructed for that stake input, which is
committed, and whose timestamp equals `startTime + 3`. -/
theorem CreateCoinStake_scenario (o : Oracles) (reads : CoinStakeReads) (self : Manager)
    (prev : CBlockIndex) (coinstakeTx : CMutableTransaction) (coinstakeInput : Option StakeInput)
    (out : COutput) (b f : CBlockIndex) (txin : CTxIn)
    (hwallet : self.pwallet = true)
    (hreserve : self.nReserveBalance = 1000) (hbalance : reads.balance = 5000)
    (hcoins : reads.wallet.AvailableCoins (nMinDepth o (prev.nHeight + 1)) = [out])
    (hvalue : out.nValue ≤ 4000)
    (hconfirmed : out.isInMainChain = true)
    (hblock : out.utxoBlock = some b)
    (hmature : o.HasStakeMinAgeOrDepth (prev.nHeight + 1) reads.wallet.adjustedTime
      b.nHeight b.nTime = true)
    (hfrom : out.stakeIndexFrom = some f) (hheight : 1 ≤ f.nHeight)
    (hmatureStake : o.HasStakeMinAgeOrDepth (prev.nHeight + 1)
      (coinStakeStartTime reads.adjustedTime prev) f.nHeight f.nTime = true)
    (hunlocked : reads.isLocked 0 = false) (hrunning : reads.shutdownRequested 0 = false)
    (hnointerrupt : reads.interruptionRequested 0 = false)
    (htip : ∀ k, (reads.stake 0).Height k = prev.nHeight)
    (hfail : ∀ i, i < 3 → ∀ h, (o.CheckStakeKernelHash prev (o.GetNextWorkRequired prev)
      (SetInput out) (coinStakeStartTime reads.adjustedTime prev + i) h).1 = false)
    (hpass : ∀ h, (o.CheckStakeKernelHash prev (o.GetNextWorkRequired prev)
      (SetInput out) (coinStakeStartTime reads.adjustedTime prev + 3) h).1 = true)
    (hpayout : ∀ vout nTotal, (o.CreateTxOuts (SetInput out) vout nTotal).1 = true)
    (hsize : ∀ tx, o.GetSerializeSize tx < o.MAX_STANDARD_TX_SIZE)
    (hin : ∀ h, o.CreateTxIn (SetInput out) h = some txin)
    (hprevTime : prev.nTime < 4294967296)
    (hstart : 1 ≤ coinStakeStartTime reads.adjustedTime prev)
    (hwindow : coinStakeStartTime reads.adjustedTime prev + 3
      ≤ stakeMaxTime (coinStakeStartTime reads.adjustedTime prev) (reads.stake 0).adjustedTime) :
    ∃ r, CreateCoinStake o reads self (some prev) coinstakeTx coinstakeInput = some r
      ∧ r.status = Completion.returns true
      ∧ r.coinstakeTx.vin = [txin]
      ∧ r.coinstakeInput = some (SetInput out)
      ∧ r.coinstakeTx.nTime = coinStakeStartTime reads.adjustedTime prev + 3 := by
  have hlt : coinStakeStartTime reads.adjustedTime prev < 4294967296 := by
    unfold coinStakeStartTime
    have := toU32_lt reads.adjustedTime
    simp only
    split_ifs <;> omega
  obtain ⟨s, hs, hfound, htime, _⟩ := Stake_first_pass o (reads.stake 0) prev (SetInput out)
    (o.GetNextWorkRequired prev) (coinStakeStartTime reads.adjustedTime prev) 0
    self.mapHashedBlocks f 3 (by simpa [SetInput] using hfrom) hheight hmatureStake hstart hlt
    hwindow htip hfail hpass
  have hsel : SelectStakeCoins o reads.wallet true [] 4000 (prev.nHeight + 1)
      = (Completion.returns true, [SetInput out]) := by
    simp [SelectStakeCoins, hcoins, selectLoop, hvalue, hconfirmed, hblock, hmature]
  have hsz : ∀ tx, ¬ (o.GetSerializeSize tx ≥ o.MAX_STANDARD_TX_SIZE) := fun tx =>
    not_le.mpr (hsize tx)
  unfold CreateCoinStake
  simp [hwallet, hreserve, hbalance, hsel, coinStakeLoop, hunlocked, hrunning, hnointerrupt,
    hs, hfound, htime, hpayout, hsz, hin, CoinStakeResult.after]

/-- Witness for C6: balance 5000, reserve 1000, one confirmed mature output of value 4000,
previous block of height 10 and time 900, adjusted time 1000 (so the start time is 1000),
kernel first satisfied at 1003. -/
theorem CreateCoinStake_scenario_witness :
    (scenarioManager 1000).nReserveBalance = 1000
    ∧ (scenarioCoinStakeReads 5000 [scenarioOutput 1 4000] 1000 10).balance = 5000
    ∧ (scenarioOutput 1 4000).nValue ≤ 4000
    ∧ coinStakeStartTime (scenarioCoinStakeReads 5000 [scenarioOutput 1 4000] 1000 10).adjustedTime
        scenarioPrev = 1000
    ∧ (∀ i, i < 3 → ∀ h, ((scenarioOracles (fun _ t => t == 1003) (fun _ => true)).CheckStakeKernelHash
        scenarioPrev ((scenarioOracles (fun _ t => t == 1003) (fun _ => true)).GetNextWorkRequired
          scenarioPrev) (SetInput (scenarioOutput 1 4000))
        (coinStakeStartTime (scenarioCoinStakeReads 5000 [scenarioOutput 1 4000] 1000 10).adjustedTime
          scenarioPrev + i) h).1 = false)
    ∧ (∀ h, ((scenarioOracles (fun _ t => t == 1003) (fun _ => true)).CheckStakeKernelHash
        scenarioPrev ((scenarioOracles (fun _ t => t == 1003) (fun _ => true)).GetNextWorkRequired
          scenarioPrev) (SetInput (scenarioOutput 1 4000))
        (coinStakeStartTime (scenarioCoinStakeReads 5000 [scenarioOutput 1 4000] 1000 10).adjustedTime
          scenarioPrev + 3) h).1 = true)
    ∧ ∃ r, CreateCoinStake (scenarioOracles (fun _ t => t == 1003) (fun _ => true))
          (scenarioCoinStakeReads 5000 [scenarioOutput 1 4000] 1000 10) (scenarioManager 1000)
          (some scenarioPrev) scenarioDraft none = some r
        ∧ r.status = Completion.returns true
        ∧ r.coinstakeTx.vin = [{ prevoutHash := 1, prevoutN := 0 }]
        ∧ r.coinstakeInput = some (SetInput (scenarioOutput 1 4000))
        ∧ r.coinstakeTx.nTime
            = coinStakeStartTime
                (scenarioCoinStakeReads 5000 [scenarioOutput 1 4000] 1000 10).adjustedTime
                scenarioPrev + 3 := by
  have hstart : coinStakeStartTime
      (scenarioCoinStakeReads 5000 [scenarioOutput 1 4000] 1000 10).adjustedTime scenarioPrev
      = 1000 := by decide
  have hfail : ∀ i, i < 3 → ∀ h,
      ((scenarioOracles (fun _ t => t == 1003) (fun _ => true)).CheckStakeKernelHash
        scenarioPrev ((scenarioOracles (fun _ t => t == 1003) (fun _ => true)).GetNextWorkRequired
          scenarioPrev) (SetInput (scenarioOutput 1 4000))
        (coinStakeStartTime (scenarioCoinStakeReads 5000 [scenarioOutput 1 4000] 1000 10).adjustedTime
          scenarioPrev + i) h).1 = false := by
    intro i hi h
    rw [hstart]
    simp [scenarioOracles]
    omega
  have hpass : ∀ h,
      ((scenarioOracles (fun _ t => t == 1003) (fun _ => true)).CheckStakeKernelHash
        scenarioPrev ((scenarioOracles (fun _ t => t == 1003) (fun _ => true)).GetNextWorkRequired
          scenarioPrev) (SetInput (scenarioOutput 1 4000))
        (coinStakeStartTime (scenarioCoinStakeReads 5000 [scenarioOutput 1 4000] 1000 10).adjustedTime
          scenarioPrev + 3) h).1 = true := by
    intro h
    rw [hstart]
    simp [scenarioOracles]
  exact ⟨rfl, rfl, by decide, hstart, hfail, hpass,
    CreateCoinStake_scenario (scenarioOracles (fun _ t => t == 1003) (fun _ => true))
      (scenarioCoinStakeReads 5000 [scenarioOutput 1 4000] 1000 10) (scenarioManager 1000)
      scenarioPrev scenarioDraft none (scenarioOutput 1 4000)
      { nHeight := 5, nTime := 500 } { nHeight := 5, nTime := 500 }
      { prevoutHash := 1, prevoutN := 0 }
      rfl rfl rfl rfl (by decide) rfl rfl rfl rfl (by decide) rfl rfl rfl rfl
      (fun _ => rfl) hfail hpass (fun _ _ => rfl) (fun _ => by simp [scenarioOracles]) (fun _ => rfl)
      (by decide) (by decide) (by decide)⟩

/-- C7 fails on the code: with two candidates that both find a kernel, the first of which
fails input construction, `CreateCoinStake` returns success with a draft whose outputs are
the payout of the second candidate only.  The reset after the failed input construction
clears `vout`, marker output included, and nothing pushes the marker again. -/
theorem CreateCoinStake_marker_lost_after_failed_input :
    (CreateCoinStake (scenarioOracles (fun _ t => t == 1003) (fun s => s.txFrom != 1))
        (scenarioCoinStakeReads 5000 [scenarioOutput 1 100, scenarioOutput 2 200] 1000 10)
        (scenarioManager 1000) (some scenarioPrev) scenarioDraft none).map
        (fun r => (r.status, r.coinstakeTx, r.coinstakeInput))
      = some (Completion.returns true,
              { vin := [{ prevoutHash := 2, prevoutN := 0 }],
                vout := [{ nValue := 200, scriptPubKey := [2] }],
                nTime := 1003 },
              some (SetInput (scenarioOutput 2 200)))
    ∧ ([{ nValue := 200, scriptPubKey := [2] }] : List CTxOut).head? ≠ some markerTxOut := by
  decide

/-! ## Theorems: the hashed-attempt record and the status query -/

/-- Outside the states reachable from the constructor: once staking has been enabled by
configuration, a kernel search at tip height 10 followed by a maintenance cycle during
which the tip height changes from 10 to 11 between the `count` and the `operator[]` of the
pacing guard reaches a state whose record has the two entries `{10 -> 1000, 11 -> 0}`; the
cycle ends at the eligibility gate, so no search rewrites the record. -/
theorem record_two_entries_when_enabled :
    (DoMaintenance (scenarioOracles (fun _ t => t == 1000) (fun _ => true))
        (scenarioMaintenanceReads 10 11 1030 [])
        { scenarioManager 1000 with mapHashedBlocks := [(10, 1000)] }).map
        (fun r => (r.status, r.self.mapHashedBlocks, r.trace))
      = some (MaintenanceStatus.returns, [(10, 1000), (11, 0)],
              [MaintenanceEvent.mintableCoins, MaintenanceEvent.sleep 300000])
    ∧ ∃ s, ReachableFrom (scenarioOracles (fun _ t => t == 1000) (fun _ => true))
          (scenarioManager 1000) s
        ∧ s.mapHashedBlocks = [(10, 1000), (11, 0)]
        ∧ ¬ (s.mapHashedBlocks.length ≤ 1) := by
  refine ⟨by decide, ?_⟩
  have hstake : Stake (scenarioOracles (fun _ t => t == 1000) (fun _ => true)) (steadyReads 10 1000)
      scenarioPrev (SetInput (scenarioOutput 1 100)) 0 1000 0
      (scenarioManager 1000).mapHashedBlocks
      = some { found := true, nTimeTx := 1000, hashProofOfStake := 1000,
               mapHashedBlocks := [(10, 1000)],
               trace := [StakeEvent.height 10, StakeEvent.kernel 1000 true] } := by
    decide
  have hcycle : DoMaintenance (scenarioOracles (fun _ t => t == 1000) (fun _ => true))
      (scenarioMaintenanceReads 10 11 1030 [])
      { scenarioManager 1000 with mapHashedBlocks := [(10, 1000)] }
      = some { status := MaintenanceStatus.returns,
               self := { scenarioManager 1000 with mapHashedBlocks := [(10, 1000), (11, 0)] },
               trace := [MaintenanceEvent.mintableCoins, MaintenanceEvent.sleep 300000] } := by
    decide
  exact ⟨_, ReachableFrom.step _ _
      (ReachableFrom.step _ _ ReachableFrom.start (Step.stake _ _ _ _ _ _ _ _ hstake))
      (Step.doMaintenance _ _ _ hcycle (by decide)),
    rfl, by decide⟩

/-- C10 fails on the code: for every record, tip height `h` and last search interval, the
body of `IsStaking` computes in `nStaking` the boolean of the claim, (entry for `h`) or
(entry for `h - 1` and interval non-zero), and then ends without a `return` statement, so
no value is handed to the caller. -/
theorem IsStaking_hands_no_value (self : Manager) (h : Int) :
    IsStakingLocal self { tipHeightFirst := h, tipHeightSecond := h }
      = (decide (mapCount self.mapHashedBlocks h ≠ 0)
          || (decide (mapCount self.mapHashedBlocks (h - 1) ≠ 0)
              && decide (self.nLastCoinStakeSearchInterval ≠ 0)))
    ∧ IsStaking self { tipHeightFirst := h, tipHeightSecond := h } = none := by
  refine ⟨?_, rfl⟩
  unfold IsStakingLocal
  by_cases h1 : mapCount self.mapHashedBlocks h ≠ 0
  · simp [h1]
  · by_cases h2 : mapCount self.mapHashedBlocks (h - 1) ≠ 0
    · by_cases h3 : self.nLastCoinStakeSearchInterval ≠ 0
      · simp [h1, h2, h3]
      · simp [h1, h2, h3]
    · simp [h1, h2]

/-! ## The record under a stable tip

The record keeps at most one entry through every member function as long as the two
tip-height reads of the pacing guard agree. -/

/-- Reading `m[k]` for a key that `count` reports leaves the record as it is. -/
theorem mapIndex_of_count (m : HashedBlocks) (k : Int) (h : mapCount m k ≠ 0) :
    (mapIndex m k).1 = m := by
  unfold mapCount at h
  have hany : m.any (fun e => e.1 == k) = true := by
    by_contra hc
    simp [hc] at h
  have hl : ∃ v, m.lookup k = some v := by
    clear h
    induction m with
    | nil => simp at hany
    | cons e rest ih =>
      rcases e with ⟨a, b⟩
      by_cases hk : k = a
      · exact ⟨b, by simp [List.lookup, hk]⟩
      · have hany2 : rest.any (fun e => e.1 == k) = true := by
          have hne : ¬ a = k := fun h => hk h.symm
          simpa [List.any_cons, hne] using hany
        obtain ⟨v, hv⟩ := ih hany2
        have hb : (k == a) = false := by simpa using hk
        exact ⟨v, by simp [List.lookup, hb, hv]⟩
  obtain ⟨v, hv⟩ := hl
  simp [mapIndex, hv]

/-- A kernel search leaves the record unchanged or with exactly one entry. -/
theorem Stake_record_size (o : Oracles) (live : StakeReads) (pindexPrev : CBlockIndex)
    (stakeInput : StakeInput) (nBits nTimeTx hashProofOfStake : Nat)
    (mapHashedBlocks : HashedBlocks) (r : StakeResult)
    (h : Stake o live pindexPrev stakeInput nBits nTimeTx hashProofOfStake mapHashedBlocks
      = some r) (hm : mapHashedBlocks.length ≤ 1) :
    r.mapHashedBlocks.length ≤ 1 := by
  rcases Stake_eq_some_cases _ _ _ _ _ _ _ _ _ h with ⟨hr, _⟩ | ⟨x, _, hr⟩
  · subst hr
    exact hm
  · subst hr
    simp

/-- The candidate loop of `CreateCoinStake` keeps the record at one entry at most. -/
theorem coinStakeLoop_record_size (o : Oracles) (reads : CoinStakeReads) (pindexPrev : CBlockIndex)
    (coinstakeInput : Option StakeInput) :
    ∀ (listInputs : List StakeInput) (k nTxNewTime : Nat) (tx : CMutableTransaction)
      (self : Manager) (r : CoinStakeResult),
      coinStakeLoop o reads pindexPrev coinstakeInput listInputs k nTxNewTime tx self = some r →
      self.mapHashedBlocks.length ≤ 1 → r.self.mapHashedBlocks.length ≤ 1 := by
  intro listInputs
  induction listInputs with
  | nil =>
    intro k t tx self r h hm
    simp [coinStakeLoop] at h
    subst h
    exact hm
  | cons stakeInput rest ih =>
    intro k t tx self r h hm
    unfold coinStakeLoop at h
    by_cases hl : (reads.isLocked k || reads.shutdownRequested k) = true
    · simp [hl] at h
      subst h
      exact hm
    · by_cases hi : reads.interruptionRequested k = true
      · simp [hl, hi] at h
        subst h
        exact hm
      · rcases hs : Stake o (reads.stake k) pindexPrev stakeInput (o.GetNextWorkRequired pindexPrev)
          t 0 self.mapHashedBlocks with _ | s
        · simp [hl, hi, hs] at h
        · have hsm := Stake_record_size _ _ _ _ _ _ _ _ s hs hm
          simp only [hl, hi, hs] at h
          by_cases hf : s.found = true
          · by_cases hout : (o.CreateTxOuts stakeInput tx.vout stakeInput.nValue).1 = true
            · by_cases hsize : o.GetSerializeSize
                { vin := tx.vin,
                  vout := (o.CreateTxOuts stakeInput tx.vout stakeInput.nValue).2,
                  nTime := s.nTimeTx } ≥ o.MAX_STANDARD_TX_SIZE
              · simp [hf, hout, hsize] at h
                subst h
                exact hsm
              · rcases hin : o.CreateTxIn stakeInput (o.GetHash
                  { vin := tx.vin,
                    vout := (o.CreateTxOuts stakeInput tx.vout stakeInput.nValue).2,
                    nTime := s.nTimeTx }) with _ | txin
                · simp [hf, hout, hsize, hin] at h
                  obtain ⟨y, hy, rfl⟩ := h
                  exact ih _ _ _ _ y hy hsm
                · simp [hf, hout, hsize, hin] at h
                  subst h
                  exact hsm
            · simp [hf, hout] at h
              subst h
              exact hsm
          · simp [hf] at h
            obtain ⟨y, hy, rfl⟩ := h
            exact ih _ _ _ _ y hy hsm

/-- A call of `CreateCoinStake` keeps the record at one entry at most. -/
theorem CreateCoinStake_record_size (o : Oracles) (reads : CoinStakeReads) (self : Manager)
    (pindexPrev : Option CBlockIndex) (coinstakeTx : CMutableTransaction)
    (coinstakeInput : Option StakeInput) (r : CoinStakeResult)
    (h : CreateCoinStake o reads self pindexPrev coinstakeTx coinstakeInput = some r)
    (hm : self.mapHashedBlocks.length ≤ 1) : r.self.mapHashedBlocks.length ≤ 1 := by
  unfold CreateCoinStake at h
  rcases pindexPrev with _ | prev
  · simp at h
    subst h
    exact hm
  · by_cases hw : self.pwallet = true
    · by_cases hb : 0 < reads.balance ∧ reads.balance ≤ self.nReserveBalance
      · simp [hw, hb] at h
        subst h
        exact hm
      · rcases hsel : (SelectStakeCoins o reads.wallet true []
            (reads.balance - self.nReserveBalance) (prev.nHeight + 1)).1 with b | _
        · cases b
          · simp [hw, hsel] at h
            rw [if_neg hb] at h
            simp at h
            subst h
            exact hm
          · simp [hw, hsel] at h
            rw [if_neg hb] at h
            simp at h
            obtain ⟨y, hy, rfl⟩ := h
            exact coinStakeLoop_record_size _ _ _ _ _ _ _ _ _ y hy hm
        · simp [hw, hsel] at h
          rw [if_neg hb] at h
          simp at h
          subst h
          exact hm
    · simp [hw] at h
      subst h
      exact hm

/-- Block template, signature and submission do not touch the record. -/
theorem maintenanceSubmit_record (reads : MaintenanceReads) (self : Manager)
    (coinstakeTx : CMutableTransaction) (coinstakeInput : Option StakeInput) :
    (maintenanceSubmit reads self coinstakeTx coinstakeInput).self.mapHashedBlocks
      = self.mapHashedBlocks := by
  unfold maintenanceSubmit
  rcases reads.CreateNewBlock coinstakeTx coinstakeInput with _ | _ | _
  · rfl
  · rfl
  · simp only
    split_ifs <;> rfl

/-- The search-time gate and the coinstake creation keep the record at one entry at most. -/
theorem maintenanceSearch_record_size (o : Oracles) (reads : MaintenanceReads) (self : Manager)
    (r : MaintenanceResult) (h : maintenanceSearch o reads self = some r)
    (hm : self.mapHashedBlocks.length ≤ 1) : r.self.mapHashedBlocks.length ≤ 1 := by
  unfold maintenanceSearch at h
  by_cases ht : reads.adjustedTime < self.nLastCoinStakeSearchTime
  · simp [ht] at h
    subst h
    exact hm
  · simp only [ht, if_false] at h
    rcases hc : CreateCoinStake o reads.coinStake
        { self with
          nLastCoinStakeSearchInterval := reads.adjustedTime - self.nLastCoinStakeSearchTime,
          nLastCoinStakeSearchTime := reads.adjustedTime }
        reads.tipCreate reads.newTransaction none with _ | c
    · simp [hc] at h
    · have hcm := CreateCoinStake_record_size _ _ _ _ _ _ c hc hm
      simp only [hc] at h
      rcases hst : c.status with b | _
      · cases b
        · simp [hst] at h
          subst h
          exact hcm
        · simp [hst] at h
          subst h
          simpa [MaintenanceResult.after, maintenanceSubmit_record] using hcm
      · simp [hst] at h
        subst h
        exact hcm

/-- The eligibility gate and what follows keep the record at one entry at most. -/
theorem maintenanceEligibility_record_size (o : Oracles) (reads : MaintenanceReads)
    (self : Manager) (r : MaintenanceResult) (h : maintenanceEligibility o reads self = some r)
    (hm : self.mapHashedBlocks.length ≤ 1) : r.self.mapHashedBlocks.length ≤ 1 := by
  unfold maintenanceEligibility at h
  rcases hmc : MintableCoins o reads.mintable self.pwallet with b | _
  · cases b
    · simp [hmc] at h
      subst h
      exact hm
    · simp [hmc] at h
      obtain ⟨y, hy, rfl⟩ := h
      exact maintenanceSearch_record_size _ _ _ y hy hm
  · simp [hmc] at h
    subst h
    exact hm

/-- A maintenance cycle whose two tip-height reads in the pacing guard agree keeps the
record at one entry at most. -/
theorem DoMaintenance_record_size (o : Oracles) (reads : MaintenanceReads) (self : Manager)
    (r : MaintenanceResult) (h : DoMaintenance o reads self = some r)
    (hsame : reads.tipHeightCount = reads.tipHeightIndex)
    (hm : self.mapHashedBlocks.length ≤ 1) : r.self.mapHashedBlocks.length ≤ 1 := by
  have hpacing : ∀ r, maintenancePacing o reads self = some r →
      r.self.mapHashedBlocks.length ≤ 1 := by
    intro r h
    unfold maintenancePacing at h
    by_cases hc : mapCount self.mapHashedBlocks reads.tipHeightCount ≠ 0
        ∧ self.fLastLoopOrphan = false
    · have hidx : (mapIndex self.mapHashedBlocks reads.tipHeightIndex).1 = self.mapHashedBlocks :=
        mapIndex_of_count _ _ (hsame ▸ hc.1)
      rw [if_pos hc] at h
      simp only [hidx] at h
      split_ifs at h
      · simp at h
        subst h
        exact hm
      · exact maintenanceEligibility_record_size _ _ _ r h hm
    · rw [if_neg hc] at h
      exact maintenanceEligibility_record_size _ _ _ r h hm
  unfold DoMaintenance at h
  by_cases he : self.fEnableStaking = true
  · by_cases hw : self.pwallet = true
    · rcases htip : reads.tip with _ | pindexPrev
      · simp [he, hw, htip, maintenanceGated] at h
        subst h
        exact hm
      · simp only [he, hw, htip] at h
        split_ifs at h
        all_goals first
          | exact hpacing r h
          | (simp [maintenanceGated] at h; subst h; exact hm)
    · simp [he, hw] at h
      subst h
      exact hm
  · simp [he] at h
    subst h
    exact hm

/-! ## Theorems: the maintenance cycle -/

/-- A cycle that passes the readiness gates continues with the pacing guard. -/
theorem DoMaintenance_of_ready (o : Oracles) (reads : MaintenanceReads) (self : Manager)
    (h : Ready o reads self) : DoMaintenance o reads self = maintenancePacing o reads self := by
  obtain ⟨he, hw, hl, hs, ⟨n, hn, hpos⟩, hb, p, hp, hh⟩ := h
  have hb2 : ¬ (reads.balance ≤ self.nReserveBalance) := not_le.mpr hb
  unfold DoMaintenance
  simp only [he, hw, hl, hs, hn, hp]
  have hn0 : decide (n > 0) = true := by simpa using hpos
  have hphase : (decide (p.nHeight + 1 ≥ o.POSStartHeight)
      || decide (p.nHeight + 1 ≥ o.POSPOWStartHeight)) = true := by
    rcases hh with hh | hh
    · simp [hh]
    · simp [hh]
  simp [hn0, hb2, hphase]

/-- C11, as stated, fails: with the staking-enabled flag false and a last-search interval of
30, a maintenance cycle returns at once; the interval is still 30 and there is no pause. -/
theorem DoMaintenance_disabled_no_pause :
    DoMaintenance (scenarioOracles (fun _ _ => true) (fun _ => true))
        (scenarioMaintenanceReads 10 10 1030 [])
        { scenarioManager 1000 with fEnableStaking := false, nLastCoinStakeSearchInterval := 30 }
      = some { status := MaintenanceStatus.returns,
               self := { scenarioManager 1000 with
                 fEnableStaking := false, nLastCoinStakeSearchInterval := 30 },
               trace := [] }
    ∧ (30 : Int) ≠ 0
    ∧ MaintenanceEvent.sleep 60000 ∉ ([] : List MaintenanceEvent) := by
  decide

/-- C11 (amended): when the staking-enabled flag is false, a maintenance cycle returns at
once: it performs no search and no pause and leaves the manager, the last-search interval
included, unchanged. -/
theorem DoMaintenance_disabled (o : Oracles) (reads : MaintenanceReads) (self : Manager)
    (hdisabled : self.fEnableStaking = false) :
    DoMaintenance o reads self
      = some { status := MaintenanceStatus.returns, self := self, trace := [] } := by
  unfold DoMaintenance
  simp [hdisabled]

/-- Witness for C11: a freshly constructed manager has staking disabled. -/
theorem DoMaintenance_disabled_witness :
    (Manager.construct true 1000).fEnableStaking = false
    ∧ DoMaintenance (scenarioOracles (fun _ _ => true) (fun _ => true))
        (scenarioMaintenanceReads 10 10 1030 []) (Manager.construct true 1000)
      = some { status := MaintenanceStatus.returns, self := Manager.construct true 1000,
               trace := [] } :=
  ⟨rfl, DoMaintenance_disabled _ _ _ rfl⟩

/-- C12: with staking enabled and the wallet present, if the wallet is locked, or there is
no chain tip, or the node is not synced, or there is no connection manager or no
connection, or the balance does not exceed the reserve, or the next block height is below
both `POSStartHeight` and `POSPOWStartHeight`, then a maintenance cycle sets the
last-search interval to zero, sleeps exactly 60 seconds, makes no other call, and leaves
the orphan flag, the last-search time and the record unchanged.  Conversely, when the other
gates are passed and the next height has reached one of the two activation heights, the
cycle is not gated and continues with the pacing guard. -/
theorem DoMaintenance_gated (o : Oracles) (reads : MaintenanceReads) (self : Manager)
    (henabled : self.fEnableStaking = true) (hwallet : self.pwallet = true) :
    ((reads.isLocked = true ∨ reads.tip = none ∨ reads.isSynced = false
        ∨ reads.nodeCount = none ∨ reads.nodeCount = some 0
        ∨ reads.balance ≤ self.nReserveBalance
        ∨ (∃ p, reads.tip = some p ∧ p.nHeight + 1 < o.POSStartHeight
            ∧ p.nHeight + 1 < o.POSPOWStartHeight)) →
      ∃ r, DoMaintenance o reads self = some r
        ∧ r.status = MaintenanceStatus.returns
        ∧ r.self.nLastCoinStakeSearchInterval = 0
        ∧ r.trace = [MaintenanceEvent.sleep 60000]
        ∧ r.self.fLastLoopOrphan = self.fLastLoopOrphan
        ∧ r.self.nLastCoinStakeSearchTime = self.nLastCoinStakeSearchTime
        ∧ r.self.mapHashedBlocks = self.mapHashedBlocks)
    ∧ (∀ p, reads.tip = some p → reads.isLocked = false → reads.isSynced = true →
        (∃ n, reads.nodeCount = some n ∧ 0 < n) → self.nReserveBalance < reads.balance →
        (o.POSStartHeight ≤ p.nHeight + 1 ∨ o.POSPOWStartHeight ≤ p.nHeight + 1) →
        DoMaintenance o reads self = maintenancePacing o reads self) := by
  constructor
  · intro hgate
    refine ⟨maintenanceGated self, ?_, rfl, rfl, rfl, rfl, rfl, rfl⟩
    unfold DoMaintenance
    simp only [henabled, hwallet]
    rcases htip : reads.tip with _ | p
    · simp
    · rcases hgate with h | h | h | h | h | h | ⟨q, hq, h1, h2⟩
      · simp [h]
      · rw [htip] at h; cases h
      · simp [h]
      · simp [h]
      · simp [h]
      · simp [h]
      · rw [htip] at hq
        cases hq
        have h1' : ¬ (o.POSStartHeight ≤ p.nHeight + 1) := not_le.mpr h1
        have h2' : ¬ (o.POSPOWStartHeight ≤ p.nHeight + 1) := not_le.mpr h2
        simp [h1', h2']
  · intro p hp hl hs hn hb hh
    exact DoMaintenance_of_ready o reads self ⟨henabled, hwallet, hl, hs, hn, hb, p, hp, hh⟩

/-- Witness for C12: a ready node whose wallet is locked for spending. -/
theorem DoMaintenance_gated_witness :
    (scenarioManager 1000).fEnableStaking = true ∧ (scenarioManager 1000).pwallet = true
    ∧ ({ scenarioMaintenanceReads 10 10 1030 [] with isLocked := true } : MaintenanceReads).isLocked
        = true
    ∧ ∃ r, DoMaintenance (scenarioOracles (fun _ _ => true) (fun _ => true))
          { scenarioMaintenanceReads 10 10 1030 [] with isLocked := true }
          (scenarioManager 1000) = some r
        ∧ r.status = MaintenanceStatus.returns
        ∧ r.self.nLastCoinStakeSearchInterval = 0
        ∧ r.trace = [MaintenanceEvent.sleep 60000]
        ∧ r.self.fLastLoopOrphan = (scenarioManager 1000).fLastLoopOrphan
        ∧ r.self.nLastCoinStakeSearchTime = (scenarioManager 1000).nLastCoinStakeSearchTime
        ∧ r.self.mapHashedBlocks = (scenarioManager 1000).mapHashedBlocks :=
  ⟨rfl, rfl, rfl,
   (DoMaintenance_gated (scenarioOracles (fun _ _ => true) (fun _ => true))
      { scenarioMaintenanceReads 10 10 1030 [] with isLocked := true }
      (scenarioManager 1000) rfl rfl).1 (Or.inl rfl)⟩

/-- The candidate loop of `CreateCoinStake` changes no member of the manager other than
the record. -/
theorem coinStakeLoop_frame (o : Oracles) (reads : CoinStakeReads) (pindexPrev : CBlockIndex)
    (coinstakeInput : Option StakeInput) :
    ∀ (listInputs : List StakeInput) (k nTxNewTime : Nat) (tx : CMutableTransaction)
      (self : Manager) (r : CoinStakeResult),
      coinStakeLoop o reads pindexPrev coinstakeInput listInputs k nTxNewTime tx self = some r →
      r.self = { self with mapHashedBlocks := r.self.mapHashedBlocks } := by
  intro listInputs
  induction listInputs with
  | nil =>
    intro k t tx self r h
    simp [coinStakeLoop] at h
    subst h
    rfl
  | cons stakeInput rest ih =>
    intro k t tx self r h
    unfold coinStakeLoop at h
    by_cases hl : (reads.isLocked k || reads.shutdownRequested k) = true
    · simp [hl] at h
      subst h
      rfl
    · by_cases hi : reads.interruptionRequested k = true
      · simp [hl, hi] at h
        subst h
        rfl
      · rcases hs : Stake o (reads.stake k) pindexPrev stakeInput (o.GetNextWorkRequired pindexPrev)
          t 0 self.mapHashedBlocks with _ | s
        · simp [hl, hi, hs] at h
        · simp only [hl, hi, hs] at h
          by_cases hf : s.found = true
          · by_cases hout : (o.CreateTxOuts stakeInput tx.vout stakeInput.nValue).1 = true
            · by_cases hsize : o.GetSerializeSize
                { vin := tx.vin,
                  vout := (o.CreateTxOuts stakeInput tx.vout stakeInput.nValue).2,
                  nTime := s.nTimeTx } ≥ o.MAX_STANDARD_TX_SIZE
              · simp [hf, hout, hsize] at h
                subst h
                rfl
              · rcases hin : o.CreateTxIn stakeInput (o.GetHash
                  { vin := tx.vin,
                    vout := (o.CreateTxOuts stakeInput tx.vout stakeInput.nValue).2,
                    nTime := s.nTimeTx }) with _ | txin
                · simp [hf, hout, hsize, hin] at h
                  obtain ⟨y, hy, rfl⟩ := h
                  have hy2 := ih _ _ _ _ y hy
                  exact hy2
                · simp [hf, hout, hsize, hin] at h
                  subst h
                  rfl
            · simp [hf, hout] at h
              subst h
              rfl
          · simp [hf] at h
            obtain ⟨y, hy, rfl⟩ := h
            have hy2 := ih _ _ _ _ y hy
            exact hy2

/-- A call of `CreateCoinStake` changes no member of the manager other than the record. -/
theorem CreateCoinStake_frame (o : Oracles) (reads : CoinStakeReads) (self : Manager)
    (pindexPrev : Option CBlockIndex) (coinstakeTx : CMutableTransaction)
    (coinstakeInput : Option StakeInput) (r : CoinStakeResult)
    (h : CreateCoinStake o reads self pindexPrev coinstakeTx coinstakeInput = some r) :
    r.self = { self with mapHashedBlocks := r.self.mapHashedBlocks } := by
  unfold CreateCoinStake at h
  rcases pindexPrev with _ | prev
  · simp at h
    subst h
    rfl
  · by_cases hw : self.pwallet = true
    · by_cases hb : 0 < reads.balance ∧ reads.balance ≤ self.nReserveBalance
      · simp [hw, hb] at h
        subst h
        rfl
      · rcases hsel : (SelectStakeCoins o reads.wallet true []
            (reads.balance - self.nReserveBalance) (prev.nHeight + 1)).1 with b | _
        · cases b
          · simp [hw, hsel] at h
            rw [if_neg hb] at h
            simp at h
            subst h
            rfl
          · simp [hw, hsel] at h
            rw [if_neg hb] at h
            simp at h
            obtain ⟨y, hy, rfl⟩ := h
            exact coinStakeLoop_frame _ _ _ _ _ _ _ _ _ y hy
        · simp [hw, hsel] at h
          rw [if_neg hb] at h
          simp at h
          subst h
          rfl
    · simp [hw] at h
      subst h
      rfl

/-- The coinstake creation of a cycle always ends. -/
theorem coinStakeLoop_isSome (o : Oracles) (reads : CoinStakeReads) (pindexPrev : CBlockIndex)
    (coinstakeInput : Option StakeInput) :
    ∀ (listInputs : List StakeInput) (k nTxNewTime : Nat) (tx : CMutableTransaction)
      (self : Manager),
      ∃ r, coinStakeLoop o reads pindexPrev coinstakeInput listInputs k nTxNewTime tx self
        = some r := by
  intro listInputs
  induction listInputs with
  | nil => intro k t tx self; simp [coinStakeLoop]
  | cons stakeInput rest ih =>
    intro k t tx self
    unfold coinStakeLoop
    obtain ⟨s, hs⟩ := Stake_isSome o (reads.stake k) pindexPrev stakeInput
      (o.GetNextWorkRequired pindexPrev) t 0 self.mapHashedBlocks
    simp only [hs]
    split_ifs
    · exact ⟨_, rfl⟩
    · exact ⟨_, rfl⟩
    · exact ⟨_, rfl⟩
    · exact ⟨_, rfl⟩
    · rcases hin : o.CreateTxIn stakeInput (o.GetHash
          { vin := tx.vin,
            vout := (o.CreateTxOuts stakeInput tx.vout stakeInput.nValue).2,
            nTime := s.nTimeTx }) with _ | txin
      · obtain ⟨y, hy⟩ := ih (k + 1) s.nTimeTx
          { vin := [], vout := [], nTime := s.nTimeTx }
          { self with mapHashedBlocks := s.mapHashedBlocks }
        simp [hy]
      · simp
    · obtain ⟨y, hy⟩ := ih (k + 1) s.nTimeTx tx { self with mapHashedBlocks := s.mapHashedBlocks }
      simp [hy]

/-- A call of `CreateCoinStake` always ends. -/
theorem CreateCoinStake_isSome (o : Oracles) (reads : CoinStakeReads) (self : Manager)
    (pindexPrev : Option CBlockIndex) (coinstakeTx : CMutableTransaction)
    (coinstakeInput : Option StakeInput) :
    ∃ r, CreateCoinStake o reads self pindexPrev coinstakeTx coinstakeInput = some r := by
  unfold CreateCoinStake
  rcases pindexPrev with _ | prev
  · simp
  · simp only
    split_ifs
    · exact ⟨_, rfl⟩
    · exact ⟨_, rfl⟩
    · rcases hsel : (SelectStakeCoins o reads.wallet self.pwallet []
          (reads.balance - self.nReserveBalance) (prev.nHeight + 1)).1 with b | _
      · cases b
        · simp
        · obtain ⟨y, hy⟩ := coinStakeLoop_isSome o reads prev coinstakeInput
            (SelectStakeCoins o reads.wallet self.pwallet []
              (reads.balance - self.nReserveBalance) (prev.nHeight + 1)).2 0
            (coinStakeStartTime reads.adjustedTime prev)
            { vin := [], vout := [markerTxOut], nTime := coinstakeTx.nTime } self
          simp [hy]
      · simp

/-- The two ways block template, signature and submission can end: the manager is
unchanged and no rejection is recorded, or the block was rejected, the orphan flag is set
and the cycle pauses 10 seconds. -/
theorem maintenanceSubmit_cases (reads : MaintenanceReads) (self : Manager)
    (coinstakeTx : CMutableTransaction) (coinstakeInput : Option StakeInput) :
    ((maintenanceSubmit reads self coinstakeTx coinstakeInput).self = self
      ∧ MaintenanceEvent.processNewBlock false
          ∉ (maintenanceSubmit reads self coinstakeTx coinstakeInput).trace)
    ∨ ((maintenanceSubmit reads self coinstakeTx coinstakeInput).self
          = { self with fLastLoopOrphan := true }
      ∧ (maintenanceSubmit reads self coinstakeTx coinstakeInput).trace
          = [MaintenanceEvent.createNewBlock, MaintenanceEvent.processNewBlock false,
             MaintenanceEvent.sleep 10000]) := by
  unfold maintenanceSubmit
  rcases reads.CreateNewBlock coinstakeTx coinstakeInput with _ | _ | _
  · exact Or.inl ⟨rfl, by simp⟩
  · exact Or.inl ⟨rfl, by simp⟩
  · simp only
    split_ifs
    · exact Or.inl ⟨rfl, by simp⟩
    · exact Or.inl ⟨rfl, by simp⟩
    · exact Or.inl ⟨rfl, by simp⟩
    · exact Or.inr ⟨rfl, rfl⟩
    · exact Or.inl ⟨rfl, by simp⟩

/-- The ways the search-time gate and what follows can end. -/
theorem maintenanceSearch_cases (o : Oracles) (reads : MaintenanceReads) (self : Manager)
    (r : MaintenanceResult) (h : maintenanceSearch o reads self = some r) :
    (reads.adjustedTime < self.nLastCoinStakeSearchTime
      ∧ r = { status := MaintenanceStatus.returns, self := self,
              trace := [MaintenanceEvent.sleep
                ((self.nLastCoinStakeSearchTime - reads.adjustedTime) * 1000)] })
    ∨ (¬ reads.adjustedTime < self.nLastCoinStakeSearchTime
      ∧ ∃ c, CreateCoinStake o reads.coinStake
            { self with
              nLastCoinStakeSearchInterval := reads.adjustedTime - self.nLastCoinStakeSearchTime,
              nLastCoinStakeSearchTime := reads.adjustedTime }
            reads.tipCreate reads.newTransaction none = some c
          ∧ ∃ rest, r.trace = MaintenanceEvent.createCoinStake c.trace :: rest
            ∧ ((r.self = c.self ∧ MaintenanceEvent.processNewBlock false ∉ rest)
              ∨ (r.self = { c.self with fLastLoopOrphan := true }
                ∧ rest = [MaintenanceEvent.createNewBlock,
                          MaintenanceEvent.processNewBlock false,
                          MaintenanceEvent.sleep 10000]))) := by
  unfold maintenanceSearch at h
  by_cases ht : reads.adjustedTime < self.nLastCoinStakeSearchTime
  · simp [ht] at h
    exact Or.inl ⟨ht, h.symm⟩
  · simp only [ht, if_false] at h
    rcases hc : CreateCoinStake o reads.coinStake
        { self with
          nLastCoinStakeSearchInterval := reads.adjustedTime - self.nLastCoinStakeSearchTime,
          nLastCoinStakeSearchTime := reads.adjustedTime }
        reads.tipCreate reads.newTransaction none with _ | c
    · simp [hc] at h
    · simp only [hc] at h
      refine Or.inr ⟨ht, c, rfl, ?_⟩
      rcases hst : c.status with b | _
      · cases b
        · simp [hst] at h
          subst h
          exact ⟨[], rfl, Or.inl ⟨rfl, by simp⟩⟩
        · simp [hst] at h
          subst h
          refine ⟨(maintenanceSubmit reads c.self c.coinstakeTx c.coinstakeInput).trace, rfl, ?_⟩
          rcases maintenanceSubmit_cases reads c.self c.coinstakeTx c.coinstakeInput
            with ⟨h1, h2⟩ | ⟨h1, h2⟩
          · exact Or.inl ⟨h1, h2⟩
          · exact Or.inr ⟨h1, h2⟩
      · simp [hst] at h
        subst h
        exact ⟨[], rfl, Or.inl ⟨rfl, by simp⟩⟩

/-- The ways the eligibility gate and what follows can end. -/
theorem maintenanceEligibility_cases (o : Oracles) (reads : MaintenanceReads) (self : Manager)
    (r : MaintenanceResult) (h : maintenanceEligibility o reads self = some r) :
    (MintableCoins o reads.mintable self.pwallet = Completion.throws
      ∧ r = { status := MaintenanceStatus.throws,
              self := { self with fLastLoopOrphan := false },
              trace := [MaintenanceEvent.mintableCoins] })
    ∨ (MintableCoins o reads.mintable self.pwallet = Completion.returns false
      ∧ r = { status := MaintenanceStatus.returns,
              self := { self with fLastLoopOrphan := false, nLastCoinStakeSearchInterval := 0 },
              trace := [MaintenanceEvent.mintableCoins, MaintenanceEvent.sleep 300000] })
    ∨ (MintableCoins o reads.mintable self.pwallet = Completion.returns true
      ∧ ∃ y, maintenanceSearch o reads { self with fLastLoopOrphan := false } = some y
          ∧ r = y.after [MaintenanceEvent.mintableCoins]) := by
  unfold maintenanceEligibility at h
  rcases hmc : MintableCoins o reads.mintable self.pwallet with b | _
  · cases b
    · simp [hmc] at h
      exact Or.inr (Or.inl ⟨rfl, h.symm⟩)
    · simp [hmc] at h
      obtain ⟨y, hy, rfl⟩ := h
      exact Or.inr (Or.inr ⟨rfl, y, hy, rfl⟩)
  · simp [hmc] at h
    exact Or.inl ⟨rfl, h.symm⟩

/-- The search-time gate and what follows always end. -/
theorem maintenanceSearch_isSome (o : Oracles) (reads : MaintenanceReads) (self : Manager) :
    ∃ r, maintenanceSearch o reads self = some r := by
  unfold maintenanceSearch
  by_cases ht : reads.adjustedTime < self.nLastCoinStakeSearchTime
  · simp [ht]
  · obtain ⟨c, hc⟩ := CreateCoinStake_isSome o reads.coinStake
      { self with
        nLastCoinStakeSearchInterval := reads.adjustedTime - self.nLastCoinStakeSearchTime,
        nLastCoinStakeSearchTime := reads.adjustedTime }
      reads.tipCreate reads.newTransaction none
    simp only [ht, if_false, hc]
    rcases c.status with b | _
    · cases b
      · exact ⟨_, rfl⟩
      · exact ⟨_, rfl⟩
    · exact ⟨_, rfl⟩

/-- The eligibility gate and what follows always end. -/
theorem maintenanceEligibility_isSome (o : Oracles) (reads : MaintenanceReads) (self : Manager) :
    ∃ r, maintenanceEligibility o reads self = some r := by
  unfold maintenanceEligibility
  rcases hmc : MintableCoins o reads.mintable self.pwallet with b | _
  · cases b
    · simp [hmc]
    · obtain ⟨y, hy⟩ := maintenanceSearch_isSome o reads { self with fLastLoopOrphan := false }
      simp [hmc, hy]
  · simp [hmc]

/-- A maintenance cycle always ends. -/
theorem DoMaintenance_isSome (o : Oracles) (reads : MaintenanceReads) (self : Manager) :
    ∃ r, DoMaintenance o reads self = some r := by
  have hp : ∃ r, maintenancePacing o reads self = some r := by
    unfold maintenancePacing
    simp only
    split_ifs
    · exact ⟨_, rfl⟩
    · exact maintenanceEligibility_isSome _ _ _
    · exact maintenanceEligibility_isSome _ _ _
  unfold DoMaintenance
  by_cases he : self.fEnableStaking = true
  · by_cases hw : self.pwallet = true
    · rcases htip : reads.tip with _ | p
      · simp [he, hw]
      · simp only [he, hw]
        split_ifs
        all_goals first
          | exact hp
          | exact ⟨_, rfl⟩
    · simp [he, hw]
  · simp [he]

/-- C13, as stated, fails for a negative elapsed time: the record says the tip of height 10
was hashed at time 1000 and the clock now shows 990, so the elapsed time -10 is less than
the hash-retry interval 22; the guard `nTimePast >= 0` lets the cycle through to
`MintableCoins` instead of sleeping min(22 + 10, 5) = 5 seconds. -/
theorem DoMaintenance_negative_elapsed_not_paced :
    (DoMaintenance (scenarioOracles (fun _ _ => true) (fun _ => true))
        (scenarioMaintenanceReads 10 10 990 [])
        { scenarioManager 1000 with mapHashedBlocks := [(10, 1000)] }).map
        (fun r => r.trace)
      = some [MaintenanceEvent.mintableCoins, MaintenanceEvent.sleep 300000]
    ∧ ((990 : Int) - 1000 < 22)
    ∧ [MaintenanceEvent.mintableCoins, MaintenanceEvent.sleep 300000]
        ≠ [MaintenanceEvent.sleep (min (22 - (990 - 1000)) 5 * 1000)] := by
  decide

/-- C13 (amended): in a maintenance cycle that passes the readiness gates, if the record
has an entry for the tip height, recorded at time `v`, and the orphan flag is clear, then
for every elapsed time `GetTime() - v` with 0 <= elapsed < hash-retry interval (and
representable as an `int`) the cycle sleeps exactly min(interval - elapsed, 5) seconds and
ends: it makes no other call and leaves the manager unchanged. -/
theorem DoMaintenance_pacing_sleep (o : Oracles) (reads : MaintenanceReads) (self : Manager)
    (v : Int) (hready : Ready o reads self)
    (hcount : mapCount self.mapHashedBlocks reads.tipHeightCount ≠ 0)
    (horphan : self.fLastLoopOrphan = false)
    (hentry : self.mapHashedBlocks.lookup reads.tipHeightIndex = some v)
    (hnonneg : 0 ≤ reads.time - v) (hlt : reads.time - v < self.nHashInterval)
    (hint : reads.time - v < 2147483648) (hinterval : self.nHashInterval < 4294967296) :
    DoMaintenance o reads self
      = some { status := MaintenanceStatus.returns, self := self,
               trace := [MaintenanceEvent.sleep
                 (min ((self.nHashInterval : Int) - (reads.time - v)) 5 * 1000)] } := by
  rw [DoMaintenance_of_ready o reads self hready]
  unfold maintenancePacing
  have haccess : mapIndex self.mapHashedBlocks reads.tipHeightIndex = (self.mapHashedBlocks, v) := by
    simp [mapIndex, hentry]
  have hI32 : toI32 (reads.time - v) = reads.time - v := by
    unfold toI32
    omega
  have hU32 : (toU32 (reads.time - v) : Int) = reads.time - v := by
    unfold toU32
    omega
  have hcond : toU32 (reads.time - v) < self.nHashInterval ∧ reads.time - v ≥ 0 := by
    constructor
    · omega
    · omega
  have hsleep : ((wrapU32 (min (wrapU32 (self.nHashInterval + 4294967296
        - toU32 (reads.time - v))) 5 * 1000) : Nat) : Int)
      = min ((self.nHashInterval : Int) - (reads.time - v)) 5 * 1000 := by
    unfold wrapU32
    omega
  simp only [haccess, hI32]
  rw [if_pos ⟨hcount, horphan⟩, if_pos hcond, hsleep]

/-- Witness for C13: the tip of height 10 was hashed at time 1000, the clock shows 1010 and
the interval is 22; the cycle sleeps min(22 - 10, 5) = 5 seconds. -/
theorem DoMaintenance_pacing_sleep_witness :
    Ready (scenarioOracles (fun _ _ => true) (fun _ => true))
        (scenarioMaintenanceReads 10 10 1010 [])
        { scenarioManager 1000 with mapHashedBlocks := [(10, 1000)] }
    ∧ ([(10, 1000)] : HashedBlocks).lookup 10 = some 1000
    ∧ (0 : Int) ≤ 1010 - 1000 ∧ (1010 : Int) - 1000 < 22
    ∧ DoMaintenance (scenarioOracles (fun _ _ => true) (fun _ => true))
        (scenarioMaintenanceReads 10 10 1010 [])
        { scenarioManager 1000 with mapHashedBlocks := [(10, 1000)] }
      = some { status := MaintenanceStatus.returns,
               self := { scenarioManager 1000 with mapHashedBlocks := [(10, 1000)] },
               trace := [MaintenanceEvent.sleep 5000] } := by
  have hready : Ready (scenarioOracles (fun _ _ => true) (fun _ => true))
      (scenarioMaintenanceReads 10 10 1010 [])
      { scenarioManager 1000 with mapHashedBlocks := [(10, 1000)] } :=
    ⟨rfl, rfl, rfl, rfl, ⟨8, rfl, by decide⟩, by decide,
     ⟨{ nHeight := 10, nTime := 900 }, rfl, Or.inl (by decide)⟩⟩
  exact ⟨hready, by decide, by decide, by decide,
    DoMaintenance_pacing_sleep (scenarioOracles (fun _ _ => true) (fun _ => true))
      (scenarioMaintenanceReads 10 10 1010 [])
      { scenarioManager 1000 with mapHashedBlocks := [(10, 1000)] } 1000 hready
      (by decide) rfl (by decide) (by decide) (by decide) (by decide) (by decide)⟩

/-- After the pacing guard, a cycle whose wallet has no mintable coin ends at the
eligibility gate: the orphan flag is clear, the last-search interval is zero, the pause is
5 minutes, and nothing else is called or changed. -/
theorem maintenanceEligibility_no_coins (o : Oracles) (reads : MaintenanceReads) (self : Manager)
    (h : MintableCoins o reads.mintable self.pwallet = Completion.returns false) :
    maintenanceEligibility o reads self
      = some { status := MaintenanceStatus.returns,
               self := { self with fLastLoopOrphan := false, nLastCoinStakeSearchInterval := 0 },
               trace := [MaintenanceEvent.mintableCoins, MaintenanceEvent.sleep 300000] } := by
  unfold maintenanceEligibility
  simp [h]

/-- C15 fails on the code in one point: in a cycle that passes the readiness gates and the
pacing guard and finds no mintable coin, neither `CreateCoinStake` nor `Stake` is called,
the last-search interval is reset to zero and the pause is 300 seconds, but the record is
not unchanged: the tip height changed from 10 to 11 between the `count` and the
`operator[]` of the pacing guard, and `operator[]` inserted the entry `11 -> 0`. -/
theorem DoMaintenance_no_coins_record_changed :
    Ready (scenarioOracles (fun _ _ => true) (fun _ => true))
        (scenarioMaintenanceReads 10 11 1030 [])
        { scenarioManager 1000 with
          mapHashedBlocks := [(10, 1000)], nLastCoinStakeSearchInterval := 30 }
    ∧ MintableCoins (scenarioOracles (fun _ _ => true) (fun _ => true))
        (scenarioMaintenanceReads 10 11 1030 []).mintable true = Completion.returns false
    ∧ DoMaintenance (scenarioOracles (fun _ _ => true) (fun _ => true))
        (scenarioMaintenanceReads 10 11 1030 [])
        { scenarioManager 1000 with
          mapHashedBlocks := [(10, 1000)], nLastCoinStakeSearchInterval := 30 }
      = some { status := MaintenanceStatus.returns,
               self := { scenarioManager 1000 with
                 mapHashedBlocks := [(10, 1000), (11, 0)], nLastCoinStakeSearchInterval := 0 },
               trace := [MaintenanceEvent.mintableCoins, MaintenanceEvent.sleep 300000] }
    ∧ ([(10, 1000), (11, 0)] : HashedBlocks) ≠ [(10, 1000)] :=
  ⟨⟨rfl, rfl, rfl, rfl, ⟨8, rfl, by decide⟩, by decide,
     ⟨{ nHeight := 10, nTime := 900 }, rfl, Or.inl (by decide)⟩⟩,
   by decide, by decide, by decide⟩

/-- From the search-time gate on: the last-search time does not decrease, a non-negative
interval stays non-negative, and a rejected block is the only way to end with the orphan
flag changed. -/
theorem maintenanceSearch_effect (o : Oracles) (reads : MaintenanceReads) (self : Manager)
    (r : MaintenanceResult) (h : maintenanceSearch o reads self = some r) :
    self.nLastCoinStakeSearchTime ≤ r.self.nLastCoinStakeSearchTime
    ∧ (0 ≤ self.nLastCoinStakeSearchInterval → 0 ≤ r.self.nLastCoinStakeSearchInterval)
    ∧ (MaintenanceEvent.processNewBlock false ∈ r.trace →
        r.self.fLastLoopOrphan = true
        ∧ ∃ pre, r.trace = pre ++ [MaintenanceEvent.processNewBlock false,
                                  MaintenanceEvent.sleep 10000])
    ∧ (MaintenanceEvent.processNewBlock false ∉ r.trace →
        r.self.fLastLoopOrphan = self.fLastLoopOrphan) := by
  rcases maintenanceSearch_cases o reads self r h with ⟨_, hr⟩ | ⟨ht, c, hc, rest, htr, hcase⟩
  · subst hr
    simp
  · have hframe := CreateCoinStake_frame _ _ _ _ _ _ c hc
    rcases hcase with ⟨hself, hno⟩ | ⟨hself, hrest⟩
    · rw [hself, hframe, htr]
      refine ⟨by simp; omega, by intro _; simp; omega, ?_, ?_⟩
      · intro hin
        simp at hin
        exact absurd hin hno
      · intro _
        rfl
    · rw [hself, hframe, htr, hrest]
      refine ⟨by simp; omega, by intro _; simp; omega, ?_, ?_⟩
      · intro _
        exact ⟨rfl, [MaintenanceEvent.createCoinStake c.trace, MaintenanceEvent.createNewBlock],
          rfl⟩
      · intro hnot
        simp at hnot

/-- From the eligibility gate on: as `maintenanceSearch_effect`, and the orphan flag ends
clear unless the block of this cycle is rejected. -/
theorem maintenanceEligibility_effect (o : Oracles) (reads : MaintenanceReads) (self : Manager)
    (r : MaintenanceResult) (h : maintenanceEligibility o reads self = some r) :
    self.nLastCoinStakeSearchTime ≤ r.self.nLastCoinStakeSearchTime
    ∧ (0 ≤ self.nLastCoinStakeSearchInterval → 0 ≤ r.self.nLastCoinStakeSearchInterval)
    ∧ (MaintenanceEvent.processNewBlock false ∈ r.trace →
        r.self.fLastLoopOrphan = true
        ∧ ∃ pre, r.trace = pre ++ [MaintenanceEvent.processNewBlock false,
                                  MaintenanceEvent.sleep 10000])
    ∧ (MaintenanceEvent.processNewBlock false ∉ r.trace → r.self.fLastLoopOrphan = false)
    ∧ ∃ rest, r.trace = MaintenanceEvent.mintableCoins :: rest := by
  rcases maintenanceEligibility_cases o reads self r h with ⟨_, hr⟩ | ⟨_, hr⟩ | ⟨_, y, hy, hr⟩
  · subst hr
    simp
  · subst hr
    simp
  · obtain ⟨h1, h2, h3, h4⟩ := maintenanceSearch_effect o reads _ y hy
    subst hr
    simp only [MaintenanceResult.after]
    refine ⟨h1, h2, ?_, ?_, ⟨y.trace, rfl⟩⟩
    · intro hin
      have hin2 : MaintenanceEvent.processNewBlock false ∈ y.trace := by simpa using hin
      obtain ⟨hf, pre, hpre⟩ := h3 hin2
      exact ⟨hf, MaintenanceEvent.mintableCoins :: pre, by simp [hpre]⟩
    · intro hnot
      have hnot2 : MaintenanceEvent.processNewBlock false ∉ y.trace := by simpa using hnot
      exact h4 hnot2

/-- A whole cycle: the last-search time does not decrease, a non-negative interval stays
non-negative, and when the block of the cycle is rejected the orphan flag is set and the
cycle ends with a pause of 10 seconds. -/
theorem DoMaintenance_effect (o : Oracles) (reads : MaintenanceReads) (self : Manager)
    (r : MaintenanceResult) (h : DoMaintenance o reads self = some r) :
    self.nLastCoinStakeSearchTime ≤ r.self.nLastCoinStakeSearchTime
    ∧ (0 ≤ self.nLastCoinStakeSearchInterval → 0 ≤ r.self.nLastCoinStakeSearchInterval)
    ∧ (MaintenanceEvent.processNewBlock false ∈ r.trace →
        r.self.fLastLoopOrphan = true
        ∧ ∃ pre, r.trace = pre ++ [MaintenanceEvent.processNewBlock false,
                                  MaintenanceEvent.sleep 10000]) := by
  have hpacing : ∀ r, maintenancePacing o reads self = some r →
      self.nLastCoinStakeSearchTime ≤ r.self.nLastCoinStakeSearchTime
      ∧ (0 ≤ self.nLastCoinStakeSearchInterval → 0 ≤ r.self.nLastCoinStakeSearchInterval)
      ∧ (MaintenanceEvent.processNewBlock false ∈ r.trace →
          r.self.fLastLoopOrphan = true
          ∧ ∃ pre, r.trace = pre ++ [MaintenanceEvent.processNewBlock false,
                                    MaintenanceEvent.sleep 10000]) := by
    intro r h
    unfold maintenancePacing at h
    simp only at h
    split_ifs at h
    · simp at h
      subst h
      simp
    · obtain ⟨h1, h2, h3, _⟩ := maintenanceEligibility_effect o reads _ r h
      exact ⟨h1, h2, h3⟩
    · obtain ⟨h1, h2, h3, _⟩ := maintenanceEligibility_effect o reads _ r h
      exact ⟨h1, h2, h3⟩
  unfold DoMaintenance at h
  by_cases he : self.fEnableStaking = true
  · by_cases hw : self.pwallet = true
    · rcases htip : reads.tip with _ | pindexPrev
      · simp [he, hw, htip, maintenanceGated] at h
        subst h
        simp
      · simp only [he, hw, htip] at h
        split_ifs at h
        all_goals first
          | exact hpacing r h
          | (simp [maintenanceGated] at h; subst h; simp)
    · simp [he, hw] at h
      subst h
      simp
  · simp [he] at h
    subst h
    simp

/-- C14: if a maintenance cycle ends with the signed block rejected by `ProcessNewBlock`, the
orphan flag is set and the cycle ends with a pause of 10 seconds; and in every next cycle
that passes the readiness gates, whatever the record holds for the tip height and however
little time has elapsed, the pacing guard is skipped: the cycle continues with the
eligibility gate (its first call is `MintableCoins`), the orphan flag is cleared there and
is clear at the end unless the block of that cycle is rejected too, and when
`MintableCoins` succeeds and the search-time gate is passed `CreateCoinStake` is called. -/
theorem DoMaintenance_orphan_retry (o : Oracles) (reads : MaintenanceReads) (self : Manager)
    (r : MaintenanceResult) (hcycle : DoMaintenance o reads self = some r)
    (hrejected : MaintenanceEvent.processNewBlock false ∈ r.trace) :
    r.self.fLastLoopOrphan = true
    ∧ (∃ pre, r.trace = pre ++ [MaintenanceEvent.processNewBlock false,
                               MaintenanceEvent.sleep 10000])
    ∧ ∀ next : MaintenanceReads, Ready o next r.self →
        DoMaintenance o next r.self = maintenanceEligibility o next r.self
        ∧ ∃ r2, DoMaintenance o next r.self = some r2
          ∧ (∃ rest, r2.trace = MaintenanceEvent.mintableCoins :: rest)
          ∧ (MaintenanceEvent.processNewBlock false ∉ r2.trace →
              r2.self.fLastLoopOrphan = false)
          ∧ (MintableCoins o next.mintable r.self.pwallet = Completion.returns true →
              r.self.nLastCoinStakeSearchTime ≤ next.adjustedTime →
              ∃ t, MaintenanceEvent.createCoinStake t ∈ r2.trace) := by
  obtain ⟨_, _, h3⟩ := DoMaintenance_effect o reads self r hcycle
  obtain ⟨hflag, hpre⟩ := h3 hrejected
  refine ⟨hflag, hpre, ?_⟩
  intro next hready
  have heq : DoMaintenance o next r.self = maintenanceEligibility o next r.self := by
    rw [DoMaintenance_of_ready o next r.self hready]
    unfold maintenancePacing
    have hno : ¬ (mapCount r.self.mapHashedBlocks next.tipHeightCount ≠ 0
        ∧ r.self.fLastLoopOrphan = false) := by
      rw [hflag]
      simp
    rw [if_neg hno]
  refine ⟨heq, ?_⟩
  obtain ⟨r2, hr2⟩ := maintenanceEligibility_isSome o next r.self
  refine ⟨r2, heq.trans hr2, ?_⟩
  obtain ⟨_, _, _, h4, h5⟩ := maintenanceEligibility_effect o next r.self r2 hr2
  refine ⟨h5, h4, ?_⟩
  intro hmint htime
  rcases maintenanceEligibility_cases o next r.self r2 hr2 with
    ⟨hm, _⟩ | ⟨hm, _⟩ | ⟨_, y, hy, hr⟩
  · rw [hmint] at hm
    cases hm
  · rw [hmint] at hm
    cases hm
  · rcases maintenanceSearch_cases o next _ y hy with ⟨hlt, _⟩ | ⟨_, c, _, rest, htr, _⟩
    · exact absurd hlt (not_lt.mpr htime)
    · refine ⟨c.trace, ?_⟩
      subst hr
      simp [MaintenanceResult.after, htr]

/-- Witness for C14: the cycle of `rejectingReads` ends with the block rejected; the next
cycle, 10 seconds later at the same tip height 10, finds the entry `10 -> 1030` with an
elapsed time below the interval 22 and still continues with the eligibility gate. -/
theorem DoMaintenance_orphan_retry_witness :
    DoMaintenance (scenarioOracles (fun _ t => t == 1030) (fun _ => true)) rejectingReads
        (scenarioManager 1000) = some rejectedCycle
    ∧ MaintenanceEvent.processNewBlock false ∈ rejectedCycle.trace
    ∧ rejectedCycle.self.fLastLoopOrphan = true
    ∧ mapCount rejectedCycle.self.mapHashedBlocks 10 ≠ 0
    ∧ ((1040 : Int) - 1030 < 22)
    ∧ DoMaintenance (scenarioOracles (fun _ t => t == 1030) (fun _ => true))
        (scenarioMaintenanceReads 10 10 1040 [scenarioOutput 1 4000]) rejectedCycle.self
      = maintenanceEligibility (scenarioOracles (fun _ t => t == 1030) (fun _ => true))
        (scenarioMaintenanceReads 10 10 1040 [scenarioOutput 1 4000]) rejectedCycle.self := by
  have hcycle : DoMaintenance (scenarioOracles (fun _ t => t == 1030) (fun _ => true))
      rejectingReads (scenarioManager 1000) = some rejectedCycle := by decide
  have hrej : MaintenanceEvent.processNewBlock false ∈ rejectedCycle.trace := by decide
  have hready : Ready (scenarioOracles (fun _ t => t == 1030) (fun _ => true))
      (scenarioMaintenanceReads 10 10 1040 [scenarioOutput 1 4000]) rejectedCycle.self :=
    ⟨rfl, rfl, rfl, rfl, ⟨8, rfl, by decide⟩, by decide,
     ⟨{ nHeight := 10, nTime := 900 }, rfl, Or.inl (by decide)⟩⟩
  obtain ⟨hflag, _, hnext⟩ := DoMaintenance_orphan_retry
    (scenarioOracles (fun _ t => t == 1030) (fun _ => true)) rejectingReads
    (scenarioManager 1000) rejectedCycle hcycle hrej
  exact ⟨hcycle, hrej, hflag, by decide, by decide,
    (hnext (scenarioMaintenanceReads 10 10 1040 [scenarioOutput 1 4000]) hready).1⟩

/-- C19: at the search-time gate with adjusted time `now` and last recorded search time
`last`: if `now < last` the cycle sleeps exactly `last - now` seconds, calls neither
`CreateCoinStake` nor anything else and leaves the manager unchanged; otherwise
`CreateCoinStake` is called with the last-search interval set to `now - last` and the
last-search time set to `now`, and the cycle ends with these two values.  Consequently,
over every sequence of steps of the manager the last-search time never decreases and a
non-negative interval stays non-negative; from a constructed manager the interval is never
negative. -/
theorem maintenanceSearch_gate (o : Oracles) (reads : MaintenanceReads) (self : Manager) :
    (reads.adjustedTime < self.nLastCoinStakeSearchTime →
      maintenanceSearch o reads self
        = some { status := MaintenanceStatus.returns, self := self,
                 trace := [MaintenanceEvent.sleep
                   ((self.nLastCoinStakeSearchTime - reads.adjustedTime) * 1000)] })
    ∧ (¬ reads.adjustedTime < self.nLastCoinStakeSearchTime →
      ∃ c r, CreateCoinStake o reads.coinStake
            { self with
              nLastCoinStakeSearchInterval := reads.adjustedTime - self.nLastCoinStakeSearchTime,
              nLastCoinStakeSearchTime := reads.adjustedTime }
            reads.tipCreate reads.newTransaction none = some c
        ∧ maintenanceSearch o reads self = some r
        ∧ (∃ rest, r.trace = MaintenanceEvent.createCoinStake c.trace :: rest)
        ∧ r.self.nLastCoinStakeSearchInterval
            = reads.adjustedTime - self.nLastCoinStakeSearchTime
        ∧ r.self.nLastCoinStakeSearchTime = reads.adjustedTime)
    ∧ (∀ s0 s, ReachableFrom o s0 s →
        s0.nLastCoinStakeSearchTime ≤ s.nLastCoinStakeSearchTime
        ∧ (0 ≤ s0.nLastCoinStakeSearchInterval → 0 ≤ s.nLastCoinStakeSearchInterval))
    ∧ (∀ pwalletIn adjustedTime s,
        ReachableFrom o (Manager.construct pwalletIn adjustedTime) s →
        0 ≤ s.nLastCoinStakeSearchInterval ∧ adjustedTime ≤ s.nLastCoinStakeSearchTime) := by
  have hreach : ∀ s0 s, ReachableFrom o s0 s →
      s0.nLastCoinStakeSearchTime ≤ s.nLastCoinStakeSearchTime
      ∧ (0 ≤ s0.nLastCoinStakeSearchInterval → 0 ≤ s.nLastCoinStakeSearchInterval) := by
    intro s0 s hs
    induction hs with
    | start => exact ⟨le_rfl, id⟩
    | step s t _ hstep ih =>
      have hst : s.nLastCoinStakeSearchTime ≤ t.nLastCoinStakeSearchTime
          ∧ (0 ≤ s.nLastCoinStakeSearchInterval → 0 ≤ t.nLastCoinStakeSearchInterval) := by
        cases hstep with
        | updatedBlockTip pindex => exact ⟨le_rfl, id⟩
        | stake live pindexPrev stakeInput nBits nTimeTx hash r hr => exact ⟨le_rfl, id⟩
        | createCoinStake reads pindexPrev tx input r hr =>
          have hframe := CreateCoinStake_frame _ _ _ _ _ _ r hr
          rw [hframe]
          exact ⟨le_rfl, id⟩
        | isStaking reads => exact ⟨le_rfl, id⟩
        | doMaintenance reads r hr _ =>
          obtain ⟨h1, h2, _⟩ := DoMaintenance_effect o reads s r hr
          exact ⟨h1, h2⟩
      exact ⟨le_trans ih.1 hst.1, fun h0 => hst.2 (ih.2 h0)⟩
  refine ⟨?_, ?_, hreach, ?_⟩
  · intro hlt
    unfold maintenanceSearch
    simp [hlt]
  · intro hge
    obtain ⟨r, hr⟩ := maintenanceSearch_isSome o reads self
    rcases maintenanceSearch_cases o reads self r hr with ⟨hlt, _⟩ | ⟨_, c, hc, rest, htr, hcase⟩
    · exact absurd hlt hge
    · have hframe := CreateCoinStake_frame _ _ _ _ _ _ c hc
      refine ⟨c, r, hc, hr, ⟨rest, htr⟩, ?_⟩
      rcases hcase with ⟨hself, _⟩ | ⟨hself, _⟩
      · rw [hself, hframe]
        exact ⟨rfl, rfl⟩
      · rw [hself, hframe]
        exact ⟨rfl, rfl⟩
  · intro pw t s hs
    obtain ⟨h1, h2⟩ := hreach _ s hs
    exact ⟨h2 (by simp [Manager.construct]), by simpa [Manager.construct] using h1⟩

/-- Witness for C19: the clock shows 990 and the last search was at 1000, so the cycle
sleeps 10 seconds; and from the state after the cycle of `rejectingReads` a cycle at 1040
records the interval 10 and the time 1040. -/
theorem maintenanceSearch_gate_witness :
    ((990 : Int) < (scenarioManager 1000).nLastCoinStakeSearchTime)
    ∧ maintenanceSearch (scenarioOracles (fun _ _ => true) (fun _ => true))
        (scenarioMaintenanceReads 10 10 990 [scenarioOutput 1 4000]) (scenarioManager 1000)
      = some { status := MaintenanceStatus.returns, self := scenarioManager 1000,
               trace := [MaintenanceEvent.sleep 10000] }
    ∧ (maintenanceSearch (scenarioOracles (fun _ t => t == 1040) (fun _ => true))
        (scenarioMaintenanceReads 10 10 1040 [scenarioOutput 1 4000]) afterRejection).map
        (fun r => (r.self.nLastCoinStakeSearchInterval, r.self.nLastCoinStakeSearchTime))
      = some (10, 1040) :=
  ⟨by decide,
   (maintenanceSearch_gate (scenarioOracles (fun _ _ => true) (fun _ => true))
      (scenarioMaintenanceReads 10 10 990 [scenarioOutput 1 4000]) (scenarioManager 1000)).1
      (by decide),
   by decide⟩

/-! ## Theorems: order and number of kernel checks -/

/-- The loop variable never decreases. -/
theorem stakeLoop_nTryTime_ge (check : Nat → Nat → Bool × Nat) (Height : Nat → Int)
    (prevHeight : Int) (maxTime : Nat) (hmax : maxTime < 4294967296) :
    ∀ (fuel nTryTime hash reads : Nat) (x : StakeLoopExit),
      stakeLoop check Height prevHeight maxTime fuel nTryTime hash reads = some x →
      nTryTime ≤ x.nTryTime := by
  intro fuel
  induction fuel with
  | zero =>
    intro nTryTime hash reads x h
    unfold stakeLoop at h
    split_ifs at h
    cases h
    exact le_rfl
  | succ fuel ih =>
    intro nTryTime hash reads x h
    unfold stakeLoop at h
    by_cases hlt : nTryTime < maxTime
    · have hw : wrapU32 (nTryTime + 1) = nTryTime + 1 := wrapU32_of_lt (by omega)
      by_cases hh : Height reads ≠ prevHeight
      · simp [hlt, hh] at h
        subst h
        exact le_rfl
      · by_cases hk : (check (wrapU32 (nTryTime + 1)) hash).1 = true
        · simp [hlt, hh, hk] at h
          subst h
          simp only [hw]
          omega
        · simp [hlt, hh, hk] at h
          obtain ⟨y, hy, rfl⟩ := h
          have := ih _ _ _ y hy
          simp only [StakeLoopExit.after]
          rw [hw] at this
          omega
    · simp [hlt] at h
      subst h
      exact le_rfl

/-- The kernel check is called on consecutive timestamps, from the one after the start
value of the loop variable up to its final value, and at most once per unit of the
iteration bound. -/
theorem stakeLoop_kernel_times (check : Nat → Nat → Bool × Nat) (Height : Nat → Int)
    (prevHeight : Int) (maxTime : Nat) (hmax : maxTime < 4294967296) :
    ∀ (fuel nTryTime hash reads : Nat) (x : StakeLoopExit),
      stakeLoop check Height prevHeight maxTime fuel nTryTime hash reads = some x →
      x.trace.filterMap StakeEvent.kernelTime
          = List.range' (nTryTime + 1) (x.nTryTime - nTryTime)
      ∧ (x.trace.filter StakeEvent.isKernel).length ≤ fuel := by
  intro fuel
  induction fuel with
  | zero =>
    intro nTryTime hash reads x h
    unfold stakeLoop at h
    split_ifs at h
    cases h
    simp
  | succ fuel ih =>
    intro nTryTime hash reads x h
    have hge := stakeLoop_nTryTime_ge check Height prevHeight maxTime hmax _ _ _ _ x h
    unfold stakeLoop at h
    by_cases hlt : nTryTime < maxTime
    · have hw : wrapU32 (nTryTime + 1) = nTryTime + 1 := wrapU32_of_lt (by omega)
      by_cases hh : Height reads ≠ prevHeight
      · simp [hlt, hh] at h
        subst h
        simp [StakeEvent.kernelTime, StakeEvent.isKernel]
      · by_cases hk : (check (wrapU32 (nTryTime + 1)) hash).1 = true
        · simp [hlt, hh, hk] at h
          subst h
          simp [StakeEvent.kernelTime, StakeEvent.isKernel, hw]
        · simp [hlt, hh, hk] at h
          obtain ⟨y, hy, rfl⟩ := h
          obtain ⟨ih1, ih2⟩ := ih _ _ _ y hy
          have hyge := stakeLoop_nTryTime_ge check Height prevHeight maxTime hmax _ _ _ _ y hy
          rw [hw] at ih1 hyge
          simp only [StakeLoopExit.after] at hge ⊢
          constructor
          · simp only [List.filterMap_append, List.filterMap_cons, StakeEvent.kernelTime,
              List.filterMap_nil, List.nil_append, List.cons_append, ih1, hw]
            have hlen : y.nTryTime - nTryTime = (y.nTryTime - (nTryTime + 1)) + 1 := by omega
            rw [hlen, List.range'_succ]
          · simp [StakeEvent.isKernel]
            omega
    · simp [hlt] at h
      subst h
      simp

/-- The iteration bound of `Stake` is at most 61, whatever the start time and the adjusted
time, in 32-bit unsigned arithmetic. -/
theorem stake_window_le_61 (nTimeTx : Nat) (adjustedTime : Int) :
    stakeMaxTime nTimeTx adjustedTime - stakeTryStart nTimeTx ≤ 61 := by
  have h1 : stakeMaxTime nTimeTx adjustedTime ≤ wrapU32 (nTimeTx + 60) := min_le_left _ _
  unfold wrapU32 at h1
  unfold stakeTryStart wrapU32
  omega

/-- C20: for every start time and adjusted time, in 32-bit unsigned arithmetic, every
kernel-check oracle and every sequence of tip heights, the search loop of `Stake` ends and
calls the kernel-hash check at most 61 times; and whenever `Stake` returns `found = false`
the start time `nTimeTx` of the caller is left unchanged. -/
theorem Stake_terminates_within_61_checks (o : Oracles) (live : StakeReads)
    (pindexPrev : CBlockIndex) (stakeInput : StakeInput) (nBits nTimeTx hashProofOfStake : Nat)
    (mapHashedBlocks : HashedBlocks) :
    (∃ r, Stake o live pindexPrev stakeInput nBits nTimeTx hashProofOfStake mapHashedBlocks
      = some r)
    ∧ ∀ r, Stake o live pindexPrev stakeInput nBits nTimeTx hashProofOfStake mapHashedBlocks
        = some r →
      (r.trace.filter StakeEvent.isKernel).length ≤ 61
      ∧ (r.found = false → r.nTimeTx = nTimeTx) := by
  refine ⟨Stake_isSome _ _ _ _ _ _ _ _, ?_⟩
  intro r hr
  rcases Stake_eq_some_cases _ _ _ _ _ _ _ _ _ hr with ⟨hr, _⟩ | ⟨x, hx, hr⟩
  · subst hr
    simp
  · subst hr
    obtain ⟨_, hcount⟩ := stakeLoop_kernel_times _ _ _ _ (stakeMaxTime_lt _ _) _ _ _ _ x hx
    have h61 := stake_window_le_61 nTimeTx live.adjustedTime
    refine ⟨le_trans hcount h61, ?_⟩
    intro hf
    simp only at hf ⊢
    simp [hf]

/-- Witness for C20: a search from 1000 at adjusted time 1000 whose kernel never passes
calls the kernel check exactly 61 times, on 1000, ..., 1060, and leaves `nTimeTx` at 1000. -/
theorem Stake_terminates_within_61_checks_witness :
    (Stake (scenarioOracles (fun _ _ => false) (fun _ => true)) (steadyReads 10 1000)
        scenarioPrev (SetInput (scenarioOutput 1 100)) 0 1000 0 []).map
        (fun r => (r.found, r.nTimeTx, (r.trace.filter StakeEvent.isKernel).length))
      = some (false, 1000, 61)
    ∧ ∃ r, Stake (scenarioOracles (fun _ _ => false) (fun _ => true)) (steadyReads 10 1000)
          scenarioPrev (SetInput (scenarioOutput 1 100)) 0 1000 0 [] = some r
        ∧ (r.trace.filter StakeEvent.isKernel).length ≤ 61
        ∧ (r.found = false → r.nTimeTx = 1000) := by
  refine ⟨by decide, ?_⟩
  obtain ⟨⟨r, hr⟩, hall⟩ := Stake_terminates_within_61_checks
    (scenarioOracles (fun _ _ => false) (fun _ => true)) (steadyReads 10 1000)
    scenarioPrev (SetInput (scenarioOutput 1 100)) 0 1000 0 []
  exact ⟨r, hr, hall r hr⟩

/-- While the chain height stays at `prevHeight`, with a kernel check whose verdict does
not depend on the previous content of the hash reference: a successful loop exit is at
the least passing timestamp after the start value, and an unsuccessful one means that the
check fails on every timestamp up to `maxTime`. -/
theorem stakeLoop_verdicts (check : Nat → Nat → Bool × Nat) (Height : Nat → Int)
    (prevHeight : Int) (maxTime : Nat) (hmax : maxTime < 4294967296)
    (hH : ∀ k, Height k = prevHeight)
    (hpure : ∀ t h h', (check t h).1 = (check t h').1) :
    ∀ (fuel nTryTime hash reads : Nat) (x : StakeLoopExit),
      stakeLoop check Height prevHeight maxTime fuel nTryTime hash reads = some x →
      (x.fSuccess = true →
        (∀ t, nTryTime < t → t < x.nTryTime → ∀ h, (check t h).1 = false)
        ∧ ∀ h, (check x.nTryTime h).1 = true)
      ∧ (x.fSuccess = false →
        ∀ t, nTryTime < t → t ≤ maxTime → ∀ h, (check t h).1 = false) := by
  intro fuel
  induction fuel with
  | zero =>
    intro nTryTime hash reads x h
    unfold stakeLoop at h
    split_ifs at h with hlt
    cases h
    refine ⟨by simp, ?_⟩
    intro _ t h1 h2
    omega
  | succ fuel ih =>
    intro nTryTime hash reads x h
    unfold stakeLoop at h
    by_cases hlt : nTryTime < maxTime
    · have hw : wrapU32 (nTryTime + 1) = nTryTime + 1 := wrapU32_of_lt (by omega)
      by_cases hk : (check (wrapU32 (nTryTime + 1)) hash).1 = true
      · simp [hlt, hH, hk] at h
        subst h
        simp only [hw]
        rw [hw] at hk
        refine ⟨fun _ => ⟨?_, ?_⟩, by simp⟩
        · intro t h1 h2
          omega
        · intro h
          rw [hpure _ h hash]
          exact hk
      · simp [hlt, hH, hk] at h
        obtain ⟨y, hy, rfl⟩ := h
        obtain ⟨ih1, ih2⟩ := ih _ _ _ y hy
        rw [hw] at ih1 ih2 hk
        have hk' : ∀ h, (check (nTryTime + 1) h).1 = false := by
          intro h
          rw [hpure _ h hash]
          simpa using hk
        simp only [StakeLoopExit.after]
        constructor
        · intro hs
          obtain ⟨a, b⟩ := ih1 hs
          refine ⟨?_, b⟩
          intro t h1 h2 h
          by_cases ht : t = nTryTime + 1
          · subst ht
            exact hk' h
          · exact a t (by omega) h2 h
        · intro hs t h1 h2 h
          by_cases ht : t = nTryTime + 1
          · subst ht
            exact hk' h
          · exact ih2 hs t (by omega) h2 h
    · simp [hlt] at h
      subst h
      refine ⟨by simp, ?_⟩
      intro _ t h1 h2
      omega

/-- C17: for every kernel search during which the live tip height stays equal to the height
of `pindexPrev` (the verdict of the kernel check depending on the timestamp and not on the
previous content of `hashProofOfStake`): the search ends; the kernel check is called on
consecutive timestamps in increasing order from the start time; if the search returns
`found = true` with winning time `t`, the check fails on every timestamp from the start
time up to `t - 1` and passes on `t`; and if it returns `found = false` after passing the
source-block and maturity preconditions, the check fails on every timestamp of the window,
from the start time up to its end `maxTime`. -/
theorem Stake_least_passing_time (o : Oracles) (live : StakeReads) (pindexPrev : CBlockIndex)
    (stakeInput : StakeInput) (nBits nTimeTx hashProofOfStake : Nat)
    (mapHashedBlocks : HashedBlocks) (hT : nTimeTx < 4294967296)
    (htip : ∀ k, live.Height k = pindexPrev.nHeight)
    (hpure : ∀ t h h', (o.CheckStakeKernelHash pindexPrev nBits stakeInput t h).1
      = (o.CheckStakeKernelHash pindexPrev nBits stakeInput t h').1) :
    (∃ r, Stake o live pindexPrev stakeInput nBits nTimeTx hashProofOfStake mapHashedBlocks
      = some r)
    ∧ ∀ r, Stake o live pindexPrev stakeInput nBits nTimeTx hashProofOfStake mapHashedBlocks
        = some r →
      r.trace.filterMap StakeEvent.kernelTime
        = List.range' nTimeTx (r.trace.filter StakeEvent.isKernel).length
      ∧ (r.found = true →
          (∀ t, nTimeTx ≤ t → t < r.nTimeTx → ∀ h,
            (o.CheckStakeKernelHash pindexPrev nBits stakeInput t h).1 = false)
          ∧ ∀ h, (o.CheckStakeKernelHash pindexPrev nBits stakeInput r.nTimeTx h).1 = true)
      ∧ (r.found = false → ∀ f, stakeInput.indexFrom = some f → 1 ≤ f.nHeight →
          o.HasStakeMinAgeOrDepth (pindexPrev.nHeight + 1) nTimeTx f.nHeight f.nTime = true →
          ∀ t, 1 ≤ nTimeTx → nTimeTx ≤ t → t ≤ stakeMaxTime nTimeTx live.adjustedTime → ∀ h,
            (o.CheckStakeKernelHash pindexPrev nBits stakeInput t h).1 = false) := by
  refine ⟨Stake_isSome _ _ _ _ _ _ _ _, ?_⟩
  intro r hr
  rcases Stake_eq_some_cases _ _ _ _ _ _ _ _ _ hr with ⟨hr, hno⟩ | ⟨x, hx, hr⟩
  · subst hr
    refine ⟨by simp, by simp, ?_⟩
    intro _ f hf hh hm
    rw [hno f hf hh] at hm
    cases hm
  · have hmaxlt := stakeMaxTime_lt nTimeTx live.adjustedTime
    obtain ⟨hv1, hv2⟩ := stakeLoop_verdicts _ _ _ _ hmaxlt htip hpure _ _ _ _ x hx
    obtain ⟨htimes, _⟩ := stakeLoop_kernel_times _ _ _ _ hmaxlt _ _ _ _ x hx
    have hge := stakeLoop_nTryTime_ge _ _ _ _ hmaxlt _ _ _ _ x hx
    have hlen : (x.trace.filter StakeEvent.isKernel).length
        = (x.trace.filterMap StakeEvent.kernelTime).length := by
      clear htimes
      induction x.trace with
      | nil => rfl
      | cons e rest ih =>
        cases e <;> simp [StakeEvent.isKernel, StakeEvent.kernelTime, List.filter_cons,
          List.filterMap_cons, ih]
    subst hr
    simp only
    by_cases h0 : nTimeTx = 0
    · -- the loop variable starts at 2^32 - 1 and the loop body never runs
      have hstart : stakeTryStart nTimeTx = 4294967295 := by
        subst h0
        rfl
      have hzero : x.nTryTime - stakeTryStart nTimeTx = 0 := by
        have hb := stakeLoop_success_bounds _ _ _ _ hmaxlt _ _ _ _ x hx
        by_cases hs : x.fSuccess = true
        · have := hb hs
          omega
        · have hs' : x.fSuccess = false := by simpa using hs
          rcases Nat.eq_zero_or_pos (x.nTryTime - stakeTryStart nTimeTx) with hz | hz
          · exact hz
          · exfalso
            have hlen0 := congrArg List.length htimes
            rw [List.length_range'] at hlen0
            have : (x.trace.filter StakeEvent.isKernel).length
                ≤ stakeMaxTime nTimeTx live.adjustedTime - stakeTryStart nTimeTx :=
              (stakeLoop_kernel_times _ _ _ _ hmaxlt _ _ _ _ x hx).2
            omega
      rw [hzero] at htimes
      refine ⟨?_, ?_, ?_⟩
      · rw [hlen, htimes]
        simp
      · intro hs
        have := stakeLoop_success_bounds _ _ _ _ hmaxlt _ _ _ _ x hx hs
        omega
      · intro _ f _ _ _ t h1 _ _
        omega
    · have hstart : stakeTryStart nTimeTx + 1 = nTimeTx := by
        unfold stakeTryStart wrapU32
        omega
      refine ⟨?_, ?_, ?_⟩
      · rw [hlen, htimes, List.length_range', hstart]
      · intro hs
        obtain ⟨a, b⟩ := hv1 hs
        rw [if_pos hs]
        exact ⟨fun t h1 h2 h => a t (by omega) h2 h, b⟩
      · intro hs f _ _ _ t _ h1 h2 h
        exact hv2 hs t (by omega) h2 h

/-- Witness for C17: a search from 1000 whose kernel passes at 1003 and at no other
timestamp; the check is called on 1000, 1001, 1002, 1003 and 1003 is the winning time. -/
theorem Stake_least_passing_time_witness :
    (1000 : Nat) < 4294967296
    ∧ (∀ k, (steadyReads 10 1000).Height k = scenarioPrev.nHeight)
    ∧ Stake (scenarioOracles (fun _ t => t == 1003) (fun _ => true)) (steadyReads 10 1000)
        scenarioPrev (SetInput (scenarioOutput 1 100)) 0 1000 0 []
      = some { found := true, nTimeTx := 1003, hashProofOfStake := 1003,
               mapHashedBlocks := [(10, 1000)],
               trace := [StakeEvent.height 10, StakeEvent.kernel 1000 false,
                         StakeEvent.height 10, StakeEvent.kernel 1001 false,
                         StakeEvent.height 10, StakeEvent.kernel 1002 false,
                         StakeEvent.height 10, StakeEvent.kernel 1003 true] }
    ∧ (∀ t, 1000 ≤ t → t < 1003 → ∀ h,
        ((scenarioOracles (fun _ t => t == 1003) (fun _ => true)).CheckStakeKernelHash
          scenarioPrev 0 (SetInput (scenarioOutput 1 100)) t h).1 = false)
    ∧ (∀ h, ((scenarioOracles (fun _ t => t == 1003) (fun _ => true)).CheckStakeKernelHash
          scenarioPrev 0 (SetInput (scenarioOutput 1 100)) 1003 h).1 = true) := by
  have hrun : Stake (scenarioOracles (fun _ t => t == 1003) (fun _ => true))
      (steadyReads 10 1000) scenarioPrev (SetInput (scenarioOutput 1 100)) 0 1000 0 []
      = some { found := true, nTimeTx := 1003, hashProofOfStake := 1003,
               mapHashedBlocks := [(10, 1000)],
               trace := [StakeEvent.height 10, StakeEvent.kernel 1000 false,
                         StakeEvent.height 10, StakeEvent.kernel 1001 false,
                         StakeEvent.height 10, StakeEvent.kernel 1002 false,
                         StakeEvent.height 10, StakeEvent.kernel 1003 true] } := by
    decide
  have hall := (Stake_least_passing_time
    (scenarioOracles (fun _ t => t == 1003) (fun _ => true)) (steadyReads 10 1000)
    scenarioPrev (SetInput (scenarioOutput 1 100)) 0 1000 0 [] (by decide) (fun _ => rfl)
    (fun _ _ _ => rfl)).2 _ hrun
  exact ⟨by decide, fun _ => rfl, hrun, (hall.2.1 rfl).1, (hall.2.1 rfl).2⟩

/-! ## Theorems: the selection policy -/

/-- When every scanned output has a known origin block, the selection loop emplaces the
inputs of the greedy reference and returns normally. -/
theorem selectLoop_eq_reference (o : Oracles) (adjustedTime nTargetAmount blockHeight : Int) :
    ∀ (vCoins : List COutput) (nAmountSelected : Int),
      (∀ out ∈ vCoins, out.utxoBlock ≠ none) →
      selectLoop o adjustedTime nTargetAmount blockHeight vCoins nAmountSelected
        = (Completion.returns true,
           (greedyReference o adjustedTime nTargetAmount blockHeight vCoins
             nAmountSelected).map SetInput) := by
  intro vCoins
  induction vCoins with
  | nil => intro n _; simp [selectLoop, greedyReference]
  | cons out rest ih =>
    intro n hb
    have hrest : ∀ x ∈ rest, x.utxoBlock ≠ none := fun x hx => hb x (List.mem_cons_of_mem _ hx)
    have hout := hb out (List.mem_cons_self _ _)
    obtain ⟨b, hblock⟩ : ∃ b, out.utxoBlock = some b := by
      rcases h : out.utxoBlock with _ | b
      · exact absurd h hout
      · exact ⟨b, rfl⟩
    unfold selectLoop greedyReference
    by_cases h1 : n + out.nValue > nTargetAmount
    · have h1' : ¬ (n + out.nValue ≤ nTargetAmount) := not_le.mpr h1
      simp [h1, h1', ih n hrest]
    · have h1' : n + out.nValue ≤ nTargetAmount := not_lt.mp h1
      by_cases h2 : out.isZerocoinSpend = true ∧ out.isInMainChain = false
      · simp [h1, h1', h2.1, h2.2, ih n hrest]
      · have h2' : (out.isZerocoinSpend && !out.isInMainChain) = false := by
          rcases hz : out.isZerocoinSpend <;> rcases hm : out.isInMainChain <;> simp_all
        by_cases h3 : o.HasStakeMinAgeOrDepth blockHeight adjustedTime b.nHeight b.nTime = true
        · have hmat : outputMature o adjustedTime blockHeight out = true := by
            simp [outputMature, hblock, h3]
          rw [if_neg h1, h2']
          simp only [hblock, h3, if_pos (And.intro h1' (And.intro h2 hmat))]
          simp [ih (n + out.nValue) hrest]
        · have hmat : ¬ (outputMature o adjustedTime blockHeight out = true) := by
            simp [outputMature, hblock, h3]
          have hneg : ¬ (n + out.nValue ≤ nTargetAmount
              ∧ ¬ (out.isZerocoinSpend = true ∧ out.isInMainChain = false)
              ∧ outputMature o adjustedTime blockHeight out = true) := fun h => hmat h.2.2
          rw [if_neg h1, h2']
          simp only [hblock, if_neg hneg]
          simp [h3, ih n hrest]

/-- C18: for wallet outputs whose origin blocks are all known, `SelectStakeCoins` returns
normally and the inputs it appends are exactly those of the skip-don't-clip greedy
reference, scanned in iteration order with a running sum starting at 0. -/
theorem SelectStakeCoins_eq_greedyReference (o : Oracles) (w : WalletReads)
    (listInputs : List StakeInput) (nTargetAmount blockHeight : Int)
    (hblocks : ∀ out ∈ w.AvailableCoins (nMinDepth o blockHeight), out.utxoBlock ≠ none) :
    SelectStakeCoins o w true listInputs nTargetAmount blockHeight
      = (Completion.returns true,
         listInputs ++ (greedyReference o w.adjustedTime nTargetAmount blockHeight
           (w.AvailableCoins (nMinDepth o blockHeight)) 0).map SetInput) := by
  unfold SelectStakeCoins
  simp [selectLoop_eq_reference o w.adjustedTime nTargetAmount blockHeight _ 0 hblocks]

/-- Witness for C18: outputs of 3000, 2000 and 500 against a target of 4000; the output of
2000 would overflow the target and is skipped, the later output of 500 is still selected. -/
theorem SelectStakeCoins_eq_greedyReference_witness :
    (∀ out ∈ (scenarioWallet [scenarioOutput 1 3000, scenarioOutput 2 2000,
        scenarioOutput 3 500] 1000 10).AvailableCoins
        (nMinDepth (scenarioOracles (fun _ _ => true) (fun _ => true)) 11),
      out.utxoBlock ≠ none)
    ∧ greedyReference (scenarioOracles (fun _ _ => true) (fun _ => true)) 1000 4000 11
        [scenarioOutput 1 3000, scenarioOutput 2 2000, scenarioOutput 3 500] 0
      = [scenarioOutput 1 3000, scenarioOutput 3 500]
    ∧ SelectStakeCoins (scenarioOracles (fun _ _ => true) (fun _ => true))
        (scenarioWallet [scenarioOutput 1 3000, scenarioOutput 2 2000, scenarioOutput 3 500]
          1000 10) true [] 4000 11
      = (Completion.returns true,
         [] ++ (greedyReference (scenarioOracles (fun _ _ => true) (fun _ => true))
           (scenarioWallet [scenarioOutput 1 3000, scenarioOutput 2 2000,
             scenarioOutput 3 500] 1000 10).adjustedTime 4000 11
           ((scenarioWallet [scenarioOutput 1 3000, scenarioOutput 2 2000,
             scenarioOutput 3 500] 1000 10).AvailableCoins
             (nMinDepth (scenarioOracles (fun _ _ => true) (fun _ => true)) 11)) 0).map
           SetInput) := by
  have hblocks : ∀ out ∈ (scenarioWallet [scenarioOutput 1 3000, scenarioOutput 2 2000,
      scenarioOutput 3 500] 1000 10).AvailableCoins
      (nMinDepth (scenarioOracles (fun _ _ => true) (fun _ => true)) 11),
      out.utxoBlock ≠ none := by
    intro out hout
    simp only [scenarioWallet, List.mem_cons, List.mem_singleton, List.not_mem_nil,
      or_false] at hout
    rcases hout with rfl | rfl | rfl <;> simp [scenarioOutput]
  exact ⟨hblocks, by decide,
    SelectStakeCoins_eq_greedyReference _ _ [] 4000 11 hblocks⟩

/-! ## Theorems: failure of payout construction -/

/-- Splitting a list at an element that is not its head. -/
theorem cons_eq_append_cons_of_ne {α : Type} {a x : α} {l pre post : List α}
    (h : a :: l = pre ++ x :: post) (hne : a ≠ x) :
    ∃ pre', pre = a :: pre' ∧ l = pre' ++ x :: post := by
  rcases pre with _ | ⟨b, pre'⟩
  · simp at h
    exact absurd h.1 hne
  · simp at h
    exact ⟨pre', by rw [h.1], h.2⟩

/-- In the candidate loop, a call of `CreateTxOuts` on a stake input for which payout
construction fails is the last event: the loop returns failure and commits no input. -/
theorem coinStakeLoop_payout_failure (o : Oracles) (reads : CoinStakeReads)
    (pindexPrev : CBlockIndex) (coinstakeInput : Option StakeInput) (bad : StakeInput)
    (hbad : ∀ vout nTotal, (o.CreateTxOuts bad vout nTotal).1 = false) :
    ∀ (listInputs : List StakeInput) (k nTxNewTime : Nat) (tx : CMutableTransaction)
      (self : Manager) (r : CoinStakeResult),
      coinStakeLoop o reads pindexPrev coinstakeInput listInputs k nTxNewTime tx self = some r →
      ∀ pre post, r.trace = pre ++ CoinStakeEvent.createTxOuts bad :: post →
        post = [] ∧ r.status = Completion.returns false
        ∧ r.coinstakeInput = coinstakeInput := by
  intro listInputs
  induction listInputs with
  | nil =>
    intro k t tx self r h pre post htr
    simp [coinStakeLoop] at h
    subst h
    simp at htr
  | cons stakeInput rest ih =>
    intro k t tx self r h pre post htr
    unfold coinStakeLoop at h
    by_cases hl : (reads.isLocked k || reads.shutdownRequested k) = true
    · simp [hl] at h
      subst h
      simp at htr
    · by_cases hi : reads.interruptionRequested k = true
      · simp [hl, hi] at h
        subst h
        simp at htr
      · rcases hs : Stake o (reads.stake k) pindexPrev stakeInput (o.GetNextWorkRequired pindexPrev)
          t 0 self.mapHashedBlocks with _ | s
        · simp [hl, hi, hs] at h
        · simp only [hl, hi, hs] at h
          by_cases hf : s.found = true
          · by_cases hout : (o.CreateTxOuts stakeInput tx.vout stakeInput.nValue).1 = true
            · have hne : stakeInput ≠ bad := by
                intro heq
                rw [heq, hbad] at hout
                cases hout
              have hne1 : CoinStakeEvent.createTxOuts stakeInput
                  ≠ CoinStakeEvent.createTxOuts bad := by
                intro heq
                injection heq with heq
                exact hne heq
              by_cases hsize : o.GetSerializeSize
                  { vin := tx.vin,
                    vout := (o.CreateTxOuts stakeInput tx.vout stakeInput.nValue).2,
                    nTime := s.nTimeTx } ≥ o.MAX_STANDARD_TX_SIZE
              · simp [hf, hout, hsize] at h
                subst h
                simp only at htr
                obtain ⟨p1, _, htr1⟩ := cons_eq_append_cons_of_ne htr (by simp)
                obtain ⟨p2, _, htr2⟩ := cons_eq_append_cons_of_ne htr1 hne1
                simp at htr2
              · rcases hin : o.CreateTxIn stakeInput (o.GetHash
                    { vin := tx.vin,
                      vout := (o.CreateTxOuts stakeInput tx.vout stakeInput.nValue).2,
                      nTime := s.nTimeTx }) with _ | txin
                · simp [hf, hout, hsize, hin] at h
                  obtain ⟨y, hy, rfl⟩ := h
                  simp only [CoinStakeResult.after, List.cons_append, List.nil_append] at htr ⊢
                  obtain ⟨p1, _, htr1⟩ := cons_eq_append_cons_of_ne htr (by simp)
                  obtain ⟨p2, _, htr2⟩ := cons_eq_append_cons_of_ne htr1 hne1
                  obtain ⟨p3, _, htr3⟩ := cons_eq_append_cons_of_ne htr2 (by simp)
                  exact ih _ _ _ _ y hy p3 post htr3
                · simp [hf, hout, hsize, hin] at h
                  subst h
                  simp only at htr
                  obtain ⟨p1, _, htr1⟩ := cons_eq_append_cons_of_ne htr (by simp)
                  obtain ⟨p2, _, htr2⟩ := cons_eq_append_cons_of_ne htr1 hne1
                  obtain ⟨p3, _, htr3⟩ := cons_eq_append_cons_of_ne htr2 (by simp)
                  simp at htr3
            · simp [hf, hout] at h
              subst h
              simp only at htr
              obtain ⟨p1, _, htr1⟩ := cons_eq_append_cons_of_ne htr (by simp)
              rcases p1 with _ | ⟨e, p1⟩
              · simp at htr1
                exact ⟨htr1.2, rfl, rfl⟩
              · simp at htr1
          · simp [hf] at h
            obtain ⟨y, hy, rfl⟩ := h
            simp only [CoinStakeResult.after, List.cons_append, List.nil_append] at htr ⊢
            obtain ⟨p1, _, htr1⟩ := cons_eq_append_cons_of_ne htr (by simp)
            exact ih _ _ _ _ y hy p1 post htr1

/-- C16, as stated, fails: of two candidates that both find a kernel at 1003, the first
fails payout construction and the second would construct successfully (alone in the
wallet it is committed); `CreateCoinStake` returns failure after the `CreateTxOuts` of the
first, without searching the second and without committing an input. -/
theorem CreateCoinStake_payout_failure_ends_build :
    CreateCoinStake (payoutOracles (fun _ t => t == 1003) (fun s => s.txFrom != 1))
        (scenarioCoinStakeReads 5000 [scenarioOutput 1 100, scenarioOutput 2 200] 1000 10)
        (scenarioManager 1000) (some scenarioPrev) scenarioDraft none
      = some { status := Completion.returns false,
               coinstakeTx := { vin := [], vout := [markerTxOut], nTime := 1003 },
               coinstakeInput := none,
               self := { scenarioManager 1000 with mapHashedBlocks := [(10, 1000)] },
               trace := [CoinStakeEvent.getBalance, CoinStakeEvent.selectStakeCoins 4000 11,
                         CoinStakeEvent.stake (SetInput (scenarioOutput 1 100)) 1000
                           [StakeEvent.height 10, StakeEvent.kernel 1000 false,
                            StakeEvent.height 10, StakeEvent.kernel 1001 false,
                            StakeEvent.height 10, StakeEvent.kernel 1002 false,
                            StakeEvent.height 10, StakeEvent.kernel 1003 true],
                         CoinStakeEvent.createTxOuts (SetInput (scenarioOutput 1 100))] }
    ∧ (CreateCoinStake (payoutOracles (fun _ t => t == 1003) (fun s => s.txFrom != 1))
        (scenarioCoinStakeReads 5000 [scenarioOutput 2 200] 1000 10)
        (scenarioManager 1000) (some scenarioPrev) scenarioDraft none).map
        (fun r => (r.status, r.coinstakeInput))
      = some (Completion.returns true, some (SetInput (scenarioOutput 2 200))) := by
  decide

/-- C16 (amended): if a kernel is found for a candidate but its payout-output construction
(`CreateTxOuts`) fails, the build is abandoned: the call of `CreateTxOuts` on that
candidate is the last event of `CreateCoinStake`, which returns failure, commits no input
and searches none of the remaining candidates, whatever they would yield. -/
theorem CreateCoinStake_payout_failure_aborts (o : Oracles) (reads : CoinStakeReads)
    (self : Manager) (pindexPrev : Option CBlockIndex) (coinstakeTx : CMutableTransaction)
    (coinstakeInput : Option StakeInput) (bad : StakeInput)
    (hbad : ∀ vout nTotal, (o.CreateTxOuts bad vout nTotal).1 = false) :
    (∃ r, CreateCoinStake o reads self pindexPrev coinstakeTx coinstakeInput = some r)
    ∧ ∀ r, CreateCoinStake o reads self pindexPrev coinstakeTx coinstakeInput = some r →
      ∀ pre post, r.trace = pre ++ CoinStakeEvent.createTxOuts bad :: post →
        post = [] ∧ r.status = Completion.returns false
        ∧ r.coinstakeInput = coinstakeInput := by
  refine ⟨CreateCoinStake_isSome _ _ _ _ _ _, ?_⟩
  intro r h pre post htr
  unfold CreateCoinStake at h
  rcases pindexPrev with _ | prev
  · simp at h
    subst h
    simp at htr
  · by_cases hw : self.pwallet = true
    · by_cases hb : 0 < reads.balance ∧ reads.balance ≤ self.nReserveBalance
      · simp [hw, hb] at h
        subst h
        simp only at htr
        obtain ⟨p1, _, htr1⟩ := cons_eq_append_cons_of_ne htr (by simp)
        simp at htr1
      · rcases hsel : (SelectStakeCoins o reads.wallet true []
            (reads.balance - self.nReserveBalance) (prev.nHeight + 1)).1 with b | _
        · cases b
          · simp [hw, hsel] at h
            rw [if_neg hb] at h
            simp at h
            subst h
            simp only at htr
            obtain ⟨p1, _, htr1⟩ := cons_eq_append_cons_of_ne htr (by simp)
            obtain ⟨p2, _, htr2⟩ := cons_eq_append_cons_of_ne htr1 (by simp)
            simp at htr2
          · simp [hw, hsel] at h
            rw [if_neg hb] at h
            simp at h
            obtain ⟨y, hy, rfl⟩ := h
            simp only [CoinStakeResult.after, List.cons_append, List.nil_append] at htr ⊢
            obtain ⟨p1, _, htr1⟩ := cons_eq_append_cons_of_ne htr (by simp)
            obtain ⟨p2, _, htr2⟩ := cons_eq_append_cons_of_ne htr1 (by simp)
            exact coinStakeLoop_payout_failure o reads prev coinstakeInput bad hbad
              _ _ _ _ _ y hy p2 post htr2
        · simp [hw, hsel] at h
          rw [if_neg hb] at h
          simp at h
          subst h
          simp only at htr
          obtain ⟨p1, _, htr1⟩ := cons_eq_append_cons_of_ne htr (by simp)
          obtain ⟨p2, _, htr2⟩ := cons_eq_append_cons_of_ne htr1 (by simp)
          simp at htr2
    · simp [hw] at h
      subst h
      simp at htr

/-- Witness for C16: the two candidates of the scenario above. -/
theorem CreateCoinStake_payout_failure_aborts_witness :
    (∀ vout nTotal, ((payoutOracles (fun _ t => t == 1003) (fun s => s.txFrom != 1)).CreateTxOuts
        (SetInput (scenarioOutput 1 100)) vout nTotal).1 = false)
    ∧ ∃ r, CreateCoinStake (payoutOracles (fun _ t => t == 1003) (fun s => s.txFrom != 1))
          (scenarioCoinStakeReads 5000 [scenarioOutput 1 100, scenarioOutput 2 200] 1000 10)
          (scenarioManager 1000) (some scenarioPrev) scenarioDraft none = some r
        ∧ (∃ pre, r.trace
            = pre ++ CoinStakeEvent.createTxOuts (SetInput (scenarioOutput 1 100)) :: [])
        ∧ r.status = Completion.returns false ∧ r.coinstakeInput = none := by
  have hbad : ∀ vout nTotal,
      ((payoutOracles (fun _ t => t == 1003) (fun s => s.txFrom != 1)).CreateTxOuts
        (SetInput (scenarioOutput 1 100)) vout nTotal).1 = false := fun _ _ => rfl
  have hrun : CreateCoinStake (payoutOracles (fun _ t => t == 1003) (fun s => s.txFrom != 1))
      (scenarioCoinStakeReads 5000 [scenarioOutput 1 100, scenarioOutput 2 200] 1000 10)
      (scenarioManager 1000) (some scenarioPrev) scenarioDraft none
      = some { status := Completion.returns false,
               coinstakeTx := { vin := [], vout := [markerTxOut], nTime := 1003 },
               coinstakeInput := none,
               self := { scenarioManager 1000 with mapHashedBlocks := [(10, 1000)] },
               trace := [CoinStakeEvent.getBalance, CoinStakeEvent.selectStakeCoins 4000 11,
                         CoinStakeEvent.stake (SetInput (scenarioOutput 1 100)) 1000
                           [StakeEvent.height 10, StakeEvent.kernel 1000 false,
                            StakeEvent.height 10, StakeEvent.kernel 1001 false,
                            StakeEvent.height 10, StakeEvent.kernel 1002 false,
                            StakeEvent.height 10, StakeEvent.kernel 1003 true],
                         CoinStakeEvent.createTxOuts (SetInput (scenarioOutput 1 100))] } := by
    decide
  have hall := (CreateCoinStake_payout_failure_aborts
    (payoutOracles (fun _ t => t == 1003) (fun s => s.txFrom != 1))
    (scenarioCoinStakeReads 5000 [scenarioOutput 1 100, scenarioOutput 2 200] 1000 10)
    (scenarioManager 1000) (some scenarioPrev) scenarioDraft none
    (SetInput (scenarioOutput 1 100)) hbad).2 _ hrun
    [CoinStakeEvent.getBalance, CoinStakeEvent.selectStakeCoins 4000 11,
     CoinStakeEvent.stake (SetInput (scenarioOutput 1 100)) 1000
       [StakeEvent.height 10, StakeEvent.kernel 1000 false,
        StakeEvent.height 10, StakeEvent.kernel 1001 false,
        StakeEvent.height 10, StakeEvent.kernel 1002 false,
        StakeEvent.height 10, StakeEvent.kernel 1003 true]] [] rfl
  exact ⟨hbad, _, hrun,
    ⟨[CoinStakeEvent.getBalance, CoinStakeEvent.selectStakeCoins 4000 11,
      CoinStakeEvent.stake (SetInput (scenarioOutput 1 100)) 1000
        [StakeEvent.height 10, StakeEvent.kernel 1000 false,
         StakeEvent.height 10, StakeEvent.kernel 1001 false,
         StakeEvent.height 10, StakeEvent.kernel 1002 false,
         StakeEvent.height 10, StakeEvent.kernel 1003 true]], rfl⟩,
    hall.2.1, hall.2.2⟩

/-- What holds of C15: in a cycle that passes the readiness gates and the pacing guard,
where the guard either is not entered or reads an entry that the record has, a wallet
without mintable coin ends the cycle at the eligibility gate with the record unchanged,
the last-search interval zero and a pause of 300 seconds, without a call of
`CreateCoinStake`. -/
theorem DoMaintenance_no_coins (o : Oracles) (reads : MaintenanceReads) (self : Manager)
    (hready : Ready o reads self)
    (hmint : MintableCoins o reads.mintable self.pwallet = Completion.returns false)
    (hguard : ¬ (mapCount self.mapHashedBlocks reads.tipHeightCount ≠ 0
          ∧ self.fLastLoopOrphan = false)
      ∨ ∃ v, self.mapHashedBlocks.lookup reads.tipHeightIndex = some v
          ∧ ¬ (toU32 (toI32 (reads.time - v)) < self.nHashInterval
              ∧ toI32 (reads.time - v) ≥ 0)) :
    DoMaintenance o reads self
      = some { status := MaintenanceStatus.returns,
               self := { self with fLastLoopOrphan := false, nLastCoinStakeSearchInterval := 0 },
               trace := [MaintenanceEvent.mintableCoins, MaintenanceEvent.sleep 300000] } := by
  rw [DoMaintenance_of_ready o reads self hready]
  unfold maintenancePacing
  by_cases hc : mapCount self.mapHashedBlocks reads.tipHeightCount ≠ 0
      ∧ self.fLastLoopOrphan = false
  · rcases hguard with hg | ⟨v, hv, hnot⟩
    · exact absurd hc hg
    · have haccess : mapIndex self.mapHashedBlocks reads.tipHeightIndex
          = (self.mapHashedBlocks, v) := by
        simp [mapIndex, hv]
      rw [if_pos hc]
      simp only [haccess]
      rw [if_neg hnot]
      exact maintenanceEligibility_no_coins o reads _ hmint
  · rw [if_neg hc]
    exact maintenanceEligibility_no_coins o reads self hmint

/-! ## Theorems: the record in the states reachable from the constructor -/

end CStakingManager
